import Mathlib

/-!
Verification development for the workflow execution engine of this
repository (template resolver, retry wrapper, action dispatcher,
run orchestrator, graph analyzer).

The engine is written in TypeScript; the definitions below are a shallow
embedding of its functions.  Dynamic JS values are modelled by the
inductive type `JValue`; JS objects are association lists in insertion
order; JS numbers are modelled by integers (every numeric literal in the
engine and in its workflow data is an integer); asynchronous waits are
recorded as data instead of elapsing; sources of nondeterminism (the
script sandbox, the AI call, random failures) are parameters.
Unbounded source loops are given an explicit fuel argument; lemmas show
the fuel does not matter once it is large enough.
-/

/-- Model of a dynamic JS value (string / number / boolean / null /
array / object).  Objects keep their keys in insertion order. -/
inductive JValue : Type where
  | vstr : String → JValue
  | vnum : Int → JValue
  | vbool : Bool → JValue
  | vnull : JValue
  | varr : List JValue → JValue
  | vobj : List (String × JValue) → JValue

mutual
/-- Boolean structural equality of dynamic values. -/
def JValue.beq : JValue → JValue → Bool
  | .vstr a, .vstr b => a == b
  | .vnum a, .vnum b => a == b
  | .vbool a, .vbool b => a == b
  | .vnull, .vnull => true
  | .varr a, .varr b => JValue.beqArr a b
  | .vobj a, .vobj b => JValue.beqMap a b
  | _, _ => false

/-- Boolean equality of value arrays. -/
def JValue.beqArr : List JValue → List JValue → Bool
  | [], [] => true
  | x :: xs, y :: ys => JValue.beq x y && JValue.beqArr xs ys
  | _, _ => false

/-- Boolean equality of key-value lists. -/
def JValue.beqMap : List (String × JValue) → List (String × JValue) → Bool
  | [], [] => true
  | (k, v) :: xs, (l, w) :: ys => k == l && JValue.beq v w && JValue.beqMap xs ys
  | _, _ => false
end

mutual
theorem JValue.beq_iff : ∀ a b : JValue, JValue.beq a b = true ↔ a = b
  | .vstr a, .vstr b => by simp [JValue.beq]
  | .vnum a, .vnum b => by simp [JValue.beq]
  | .vbool a, .vbool b => by simp [JValue.beq]
  | .vnull, .vnull => by simp [JValue.beq]
  | .varr a, .varr b => by simp [JValue.beq, JValue.beqArr_iff a b]
  | .vobj a, .vobj b => by simp [JValue.beq, JValue.beqMap_iff a b]
  | .vstr _, .vnum _ | .vstr _, .vbool _ | .vstr _, .vnull | .vstr _, .varr _ | .vstr _, .vobj _
  | .vnum _, .vstr _ | .vnum _, .vbool _ | .vnum _, .vnull | .vnum _, .varr _ | .vnum _, .vobj _
  | .vbool _, .vstr _ | .vbool _, .vnum _ | .vbool _, .vnull | .vbool _, .varr _ | .vbool _, .vobj _
  | .vnull, .vstr _ | .vnull, .vnum _ | .vnull, .vbool _ | .vnull, .varr _ | .vnull, .vobj _
  | .varr _, .vstr _ | .varr _, .vnum _ | .varr _, .vbool _ | .varr _, .vnull | .varr _, .vobj _
  | .vobj _, .vstr _ | .vobj _, .vnum _ | .vobj _, .vbool _ | .vobj _, .vnull | .vobj _, .varr _ => by
      simp [JValue.beq]

theorem JValue.beqArr_iff : ∀ a b : List JValue, JValue.beqArr a b = true ↔ a = b
  | [], [] => by simp [JValue.beqArr]
  | x :: xs, y :: ys => by
      simp [JValue.beqArr, JValue.beq_iff x y, JValue.beqArr_iff xs ys]
  | [], _ :: _ => by simp [JValue.beqArr]
  | _ :: _, [] => by simp [JValue.beqArr]

theorem JValue.beqMap_iff : ∀ a b : List (String × JValue), JValue.beqMap a b = true ↔ a = b
  | [], [] => by simp [JValue.beqMap]
  | (k, v) :: xs, (l, w) :: ys => by
      simp [JValue.beqMap, JValue.beq_iff v w, JValue.beqMap_iff xs ys, and_assoc]
  | [], _ :: _ => by simp [JValue.beqMap]
  | _ :: _, [] => by simp [JValue.beqMap]
end

instance : DecidableEq JValue := fun a b =>
  decidable_of_iff (JValue.beq a b = true) (JValue.beq_iff a b)

/-- A JS object: keys with values, in insertion order. -/
abbrev JObj : Type := List (String × JValue)

/-- Property read `o[k]`: the value stored under the first (unique)
occurrence of the key, if any. -/
def objGet : JObj → String → Option JValue
  | [], _ => none
  | (k, v) :: rest, key => if k = key then some v else objGet rest key

/-- Property write `o[k] = v`: overwrite the existing binding in place,
or append a new one (JS insertion-order semantics). -/
def objSet : JObj → String → JValue → JObj
  | [], key, v => [(key, v)]
  | (k, w) :: rest, key, v =>
      if k = key then (k, v) :: rest else (k, w) :: objSet rest key v

/-- Object spread `\x7b...a, ...b\x7d`: keys of `b` overwrite keys of `a`,
order of `a` preserved, new keys of `b` appended in order. -/
def objMerge (a b : JObj) : JObj :=
  b.foldl (fun acc kv => objSet acc kv.1 kv.2) a

mutual
/-- JS `String(v)` coercion: identity on strings, decimal form of
numbers, `true` / `false` / `null`, comma join for arrays, the default
object tag for plain objects. -/
def jToString : JValue → String
  | .vstr s => s
  | .vnum n => toString n
  | .vbool b => if b then "true" else "false"
  | .vnull => "null"
  | .varr xs => jToStringArr xs
  | .vobj _ => "[object Object]"

/-- JS `Array.prototype.toString`, i.e. `join(",")`: elements
stringified and joined by commas, with null (and undefined) elements
rendered as the empty string by the join rule. -/
def jToStringArr : List JValue → String
  | [] => ""
  | [JValue.vnull] => ""
  | [x] => jToString x
  | JValue.vnull :: y :: xs => "," ++ jToStringArr (y :: xs)
  | x :: y :: xs => jToString x ++ "," ++ jToStringArr (y :: xs)
end

/-- JS falsiness of a value (used for `x || default` patterns). -/
def jsFalsy : JValue → Bool
  | .vstr s => s = ""
  | .vnum n => n = 0
  | .vbool b => !b
  | .vnull => true
  | .varr _ => false
  | .vobj _ => false

/-- JS `toLowerCase`, character-wise (ASCII is all the engine
compares). -/
def strToLower (s : String) : String :=
  String.mk (s.data.map Char.toLower)

/-- `a.includes(b)` on strings: substring test. -/
def strIncludes (s sub : String) : Bool :=
  (List.range (s.data.length + 1)).any fun i => sub.data.isPrefixOf (s.data.drop i)

/-!  ## Template Resolver (`resolveConfig` in the source)

The source replaces every regex match of two opening braces, one or more
non-closing-brace characters, and two closing braces inside a string by
the context value of the trimmed identifier; an unresolved token is
re-emitted as braces around the trimmed identifier.  The scanner below
is the regex engine specialised to that pattern: at a double opening
brace it takes the maximal run of non-closing-brace characters and
requires two closing braces right after it; if the attempt fails the
regex engine advances (a failed attempt at position i also fails at
position i+1 whenever that position starts with a double brace, because
both attempts stop at the same first closing brace, so the scanner may
emit both braces and continue).  `fuel` only bounds the recursion; it is
always called with the length of the list. -/

/-- JS `String.prototype.trim` on a character list. -/
def trimChars (cs : List Char) : List Char :=
  ((cs.dropWhile Char.isWhitespace).reverse.dropWhile Char.isWhitespace).reverse

/-- Context lookup `context[cleanKey]` for the resolver. -/
def ctxFind : List (String × JValue) → String → Option JValue
  | [], _ => none
  | (k, v) :: rest, key => if k = key then some v else ctxFind rest key

/-- One pass of `config.replace` with the placeholder regex, on
character lists, structurally recursive on `fuel`. -/
def resolveChars (ctx : List (String × JValue)) : Nat → List Char → List Char
  | 0, cs => cs
  | _ + 1, [] => []
  | fuel + 1, '{' :: '{' :: rest =>
      match rest.takeWhile (fun c => c ≠ '}'), rest.dropWhile (fun c => c ≠ '}') with
      | k :: ks, '}' :: '}' :: rest₂ =>
          let cleanKey := trimChars (k :: ks)
          match ctxFind ctx (String.mk cleanKey) with
          | some v => (jToString v).data ++ resolveChars ctx fuel rest₂
          | none => '{' :: '{' :: (cleanKey ++ '}' :: '}' :: resolveChars ctx fuel rest₂)
      | _, _ => '{' :: '{' :: resolveChars ctx fuel rest
  | fuel + 1, c :: rest => c :: resolveChars ctx fuel rest

/-- One resolver pass with its canonical fuel (the length of the list,
which the recursion never exhausts). -/
def resolveC (ctx : List (String × JValue)) (cs : List Char) : List Char :=
  resolveChars ctx cs.length cs

/-- String-level resolver pass. -/
def resolveCStr (ctx : List (String × JValue)) (s : String) : String :=
  String.mk (resolveC ctx s.data)

mutual
/-- `resolveConfig(config, context)`: strings get placeholder
substitution, arrays map element-wise, objects value-wise, everything
else is returned unchanged. -/
def resolveConfig : JValue → List (String × JValue) → JValue
  | .vstr s, ctx => .vstr (resolveCStr ctx s)
  | .varr xs, ctx => .varr (resolveConfigArr xs ctx)
  | .vobj kvs, ctx => .vobj (resolveConfigMap kvs ctx)
  | v, _ => v
termination_by structural x _ => x

/-- Element-wise resolution of an array (`config.map`). -/
def resolveConfigArr : List JValue → List (String × JValue) → List JValue
  | [], _ => []
  | x :: xs, ctx => resolveConfig x ctx :: resolveConfigArr xs ctx
termination_by structural x _ => x

/-- Value-wise resolution of an object (`for key in config`). -/
def resolveConfigMap : List (String × JValue) → List (String × JValue) → List (String × JValue)
  | [], _ => []
  | (k, v) :: kvs, ctx => (k, resolveConfig v ctx) :: resolveConfigMap kvs ctx
termination_by structural x _ => x
end

/-!  ### Scanner step equations

The scanner is characterised by one equation per situation: empty input,
a plain character copy, a failed match attempt, and a completed match.
Fuel irrelevance lets all of them be stated for `resolveC`. -/

/-- The remainder after a double opening brace admits a regex match:
a nonempty run of non-closing-brace characters followed by two closing
braces. -/
def MatchShape (rest : List Char) : Prop :=
  ∃ k ks rest₂, rest.takeWhile (fun c => c ≠ '}') = k :: ks ∧
    rest.dropWhile (fun c => c ≠ '}') = '}' :: '}' :: rest₂

theorem resolveChars_nil (ctx : List (String × JValue)) : ∀ fuel, resolveChars ctx fuel [] = []
  | 0 => rfl
  | _ + 1 => rfl

theorem resolveChars_copy (ctx : List (String × JValue)) (c : Char) (rest : List Char) (m : Nat)
    (h : c ≠ '{' ∨ rest.head? ≠ some '{') :
    resolveChars ctx (m + 1) (c :: rest) = c :: resolveChars ctx m rest := by
  rw [resolveChars.eq_def]
  split
  · omega
  · rename_i heq₂ heq
    exact absurd heq (by simp)
  · rename_i fuel rest₁ heq₁ heq
    have hm : fuel = m := by omega
    subst hm
    injection heq with e₁ e₂
    subst e₁
    rcases h with h | h
    · exact absurd rfl h
    · rw [e₂] at h
      simp at h
  · rename_i fuel c' rest' hno heq₁ heq
    have hm : fuel = m := by omega
    subst hm
    injection heq with e₁ e₂
    subst e₁; subst e₂
    rfl

theorem resolveChars_fail (ctx : List (String × JValue)) (rest : List Char) (m : Nat)
    (h : ¬ MatchShape rest) :
    resolveChars ctx (m + 1) ('{' :: '{' :: rest) = '{' :: '{' :: resolveChars ctx m rest := by
  rw [resolveChars.eq_def]
  split
  · omega
  · rename_i heq₂ heq
    exact absurd heq (by simp)
  · rename_i fuel rest₁ heq₁ heq
    have hm : fuel = m := by omega
    subst hm
    injection heq with e₁ e₂
    injection e₂ with e₃ e₄
    subst e₄
    split
    · rename_i k ks rest₂ htk hdw
      exact absurd ⟨k, ks, rest₂, htk, hdw⟩ h
    · rfl
  · rename_i fuel c' rest' hno heq₁ heq
    exact absurd heq (by
      intro hh
      injection hh with a b
      exact hno rest a.symm b.symm)

theorem resolveChars_hit (ctx : List (String × JValue)) (rest : List Char) (m : Nat)
    (k : Char) (ks rest₂ : List Char)
    (htk : rest.takeWhile (fun c => c ≠ '}') = k :: ks)
    (hdw : rest.dropWhile (fun c => c ≠ '}') = '}' :: '}' :: rest₂) :
    resolveChars ctx (m + 1) ('{' :: '{' :: rest) =
      match ctxFind ctx (String.mk (trimChars (k :: ks))) with
      | some v => (jToString v).data ++ resolveChars ctx m rest₂
      | none => '{' :: '{' :: (trimChars (k :: ks) ++ '}' :: '}' :: resolveChars ctx m rest₂) := by
  rw [resolveChars.eq_def]
  split
  · omega
  · rename_i heq₂ heq
    exact absurd heq (by simp)
  · rename_i fuel rest₁ heq₁ heq
    have hm : fuel = m := by omega
    subst hm
    injection heq with e₁ e₂
    injection e₂ with e₃ e₄
    subst e₄
    rw [htk, hdw]
    rfl
  · rename_i fuel c' rest' hno heq₁ heq
    exact absurd heq (by
      intro hh
      injection hh with a b
      exact hno rest a.symm b.symm)

theorem length_take_drop_split (p : Char → Bool) (l : List Char) :
    (List.takeWhile p l).length + (List.dropWhile p l).length = l.length := by
  conv_rhs => rw [← List.takeWhile_append_dropWhile p l]
  exact (List.length_append _ _).symm

theorem resolveChars_fuelIrrel (ctx : List (String × JValue)) :
    ∀ (n : Nat) (cs : List Char), cs.length ≤ n →
      ∀ m₁ m₂, cs.length ≤ m₁ → cs.length ≤ m₂ →
        resolveChars ctx m₁ cs = resolveChars ctx m₂ cs := by
  intro n
  induction n with
  | zero =>
      intro cs hcs m₁ m₂ _ _
      have hnil : cs = [] := List.length_eq_zero.mp (Nat.le_zero.mp hcs)
      subst hnil
      simp [resolveChars_nil]
  | succ n ih =>
      intro cs hcs m₁ m₂ h₁ h₂
      rcases cs with _ | ⟨c, rest⟩
      · simp [resolveChars_nil]
      · simp only [List.length_cons] at hcs h₁ h₂
        obtain ⟨m₁', rfl⟩ : ∃ j, m₁ = j + 1 := ⟨m₁ - 1, by omega⟩
        obtain ⟨m₂', rfl⟩ : ∃ j, m₂ = j + 1 := ⟨m₂ - 1, by omega⟩
        by_cases hsh : c = '{' ∧ rest.head? = some '{'
        · obtain ⟨rfl, hh⟩ := hsh
          rcases rest with _ | ⟨c₂, rest⟩
          · simp at hh
          · simp only [List.head?_cons, Option.some.injEq] at hh
            subst hh
            simp only [List.length_cons] at hcs h₁ h₂
            by_cases hm : MatchShape rest
            · obtain ⟨k, ks, rest₂, htk, hdw⟩ := hm
              rw [resolveChars_hit _ _ _ k ks rest₂ htk hdw,
                  resolveChars_hit _ _ _ k ks rest₂ htk hdw]
              have hlen : rest₂.length + 2 ≤ rest.length := by
                have := length_take_drop_split (fun c => c ≠ '}') rest
                rw [htk, hdw] at this
                simp at this
                omega
              rw [ih rest₂ (by omega) m₁' m₂' (by omega) (by omega)]
            · rw [resolveChars_fail _ _ _ hm, resolveChars_fail _ _ _ hm]
              rw [ih rest (by omega) m₁' m₂' (by omega) (by omega)]
        · have hor : c ≠ '{' ∨ rest.head? ≠ some '{' := by
            by_cases hc : c = '{'
            · right; intro hhd; exact hsh ⟨hc, hhd⟩
            · left; exact hc
          rw [resolveChars_copy _ _ _ _ hor, resolveChars_copy _ _ _ _ hor]
          rw [ih rest (by omega) m₁' m₂' (by omega) (by omega)]

theorem resolveC_nil (ctx : List (String × JValue)) : resolveC ctx [] = [] := rfl

theorem resolveC_copy (ctx : List (String × JValue)) (c : Char) (rest : List Char)
    (h : c ≠ '{' ∨ rest.head? ≠ some '{') :
    resolveC ctx (c :: rest) = c :: resolveC ctx rest := by
  unfold resolveC
  simp only [List.length_cons]
  exact resolveChars_copy ctx c rest rest.length h

theorem resolveC_fail (ctx : List (String × JValue)) (rest : List Char)
    (h : ¬ MatchShape rest) :
    resolveC ctx ('{' :: '{' :: rest) = '{' :: '{' :: resolveC ctx rest := by
  unfold resolveC
  simp only [List.length_cons]
  rw [show rest.length + 1 + 1 = (rest.length + 1) + 1 from rfl,
      resolveChars_fail ctx rest (rest.length + 1) h]
  rw [resolveChars_fuelIrrel ctx rest.length rest (by omega) (rest.length + 1) rest.length
        (by omega) (by omega)]

theorem resolveC_hit (ctx : List (String × JValue)) (rest : List Char)
    (k : Char) (ks rest₂ : List Char)
    (htk : rest.takeWhile (fun c => c ≠ '}') = k :: ks)
    (hdw : rest.dropWhile (fun c => c ≠ '}') = '}' :: '}' :: rest₂) :
    resolveC ctx ('{' :: '{' :: rest) =
      match ctxFind ctx (String.mk (trimChars (k :: ks))) with
      | some v => (jToString v).data ++ resolveC ctx rest₂
      | none => '{' :: '{' :: (trimChars (k :: ks) ++ '}' :: '}' :: resolveC ctx rest₂) := by
  have hlen : rest₂.length + 2 ≤ rest.length := by
    have := length_take_drop_split (fun c => c ≠ '}') rest
    rw [htk, hdw] at this
    simp at this
    omega
  unfold resolveC
  simp only [List.length_cons]
  rw [show rest.length + 1 + 1 = (rest.length + 1) + 1 from rfl,
      resolveChars_hit ctx rest (rest.length + 1) k ks rest₂ htk hdw]
  rw [resolveChars_fuelIrrel ctx rest.length rest₂ (by omega) (rest.length + 1) rest₂.length
        (by omega) (by omega)]

/-!  ### Trim, context and append helpers -/

theorem dropWhile_idem (p : Char → Bool) (l : List Char) :
    List.dropWhile p (List.dropWhile p l) = List.dropWhile p l := by
  induction l with
  | nil => rfl
  | cons a l ih =>
      by_cases h : p a
      · simp [List.dropWhile_cons, h, ih]
      · simp [List.dropWhile_cons, h]

theorem dropWhile_eq_self_of_head? (p : Char → Bool) (l : List Char)
    (h : ∀ c, l.head? = some c → p c = false) : List.dropWhile p l = l := by
  rcases l with _ | ⟨a, l⟩
  · rfl
  · have := h a rfl
    simp [List.dropWhile_cons, this]

theorem head?_dropWhile_false (p : Char → Bool) (l : List Char) (c : Char)
    (h : (List.dropWhile p l).head? = some c) : p c = false := by
  have hm := List.head?_dropWhile_not p l
  rw [h] at hm
  exact hm

theorem trimChars_idem (l : List Char) : trimChars (trimChars l) = trimChars l := by
  have hBdrop : ∀ m : List Char, List.dropWhile Char.isWhitespace
      ((List.dropWhile Char.isWhitespace m).reverse.dropWhile Char.isWhitespace).reverse =
      ((List.dropWhile Char.isWhitespace m).reverse.dropWhile Char.isWhitespace).reverse := by
    intro m
    apply dropWhile_eq_self_of_head?
    intro c hc
    set A := List.dropWhile Char.isWhitespace m with hA
    set B := A.reverse.dropWhile Char.isWhitespace with hB
    rw [List.head?_reverse] at hc
    obtain ⟨pre, hpre⟩ := List.dropWhile_suffix (l := A.reverse) Char.isWhitespace
    have hgl : (pre ++ B).getLast? = B.getLast?.or pre.getLast? := List.getLast?_append
    rw [hpre] at hgl
    rw [hc] at hgl
    simp only [Option.or_some] at hgl
    rw [List.getLast?_reverse] at hgl
    rw [hA] at hgl
    exact head?_dropWhile_false Char.isWhitespace m c hgl
  unfold trimChars
  rw [hBdrop l]
  rw [List.reverse_reverse]
  rw [dropWhile_idem]

theorem trimChars_subset (l : List Char) : ∀ c ∈ trimChars l, c ∈ l := by
  intro c hc
  unfold trimChars at hc
  rw [List.mem_reverse] at hc
  have h₁ := (List.dropWhile_sublist (l := (l.dropWhile Char.isWhitespace).reverse)
    Char.isWhitespace).subset hc
  rw [List.mem_reverse] at h₁
  exact (List.dropWhile_sublist (l := l) Char.isWhitespace).subset h₁

/-- Context whose stringified values are nonempty and contain no brace
characters (the sufficient condition for idempotence of the resolver). -/
def GoodCtx (ctx : List (String × JValue)) : Prop :=
  ∀ p ∈ ctx, (jToString p.2).data ≠ [] ∧ ∀ c ∈ (jToString p.2).data, c ≠ '{' ∧ c ≠ '}'

theorem ctxFind_mem : ∀ (ctx : List (String × JValue)) (s : String) (v : JValue),
    ctxFind ctx s = some v → ∃ k, (k, v) ∈ ctx
  | [], _, _, h => by simp [ctxFind] at h
  | (k, w) :: rest, s, v, h => by
      rw [ctxFind] at h
      by_cases hk : k = s
      · rw [if_pos hk] at h
        injection h with h
        exact ⟨k, by simp [h]⟩
      · rw [if_neg hk] at h
        obtain ⟨k', hk'⟩ := ctxFind_mem rest s v h
        exact ⟨k', by simp [hk']⟩

theorem takeWhile_append_all (p : Char → Bool) (a b : List Char) (h : ∀ c ∈ a, p c = true) :
    (a ++ b).takeWhile p = a ++ b.takeWhile p := by
  induction a with
  | nil => simp
  | cons x a ih =>
      have hx : p x = true := h x (by simp)
      simp only [List.cons_append, List.takeWhile_cons, hx, if_true]
      rw [ih (fun c hc => h c (by simp [hc]))]

theorem dropWhile_append_all (p : Char → Bool) (a b : List Char) (h : ∀ c ∈ a, p c = true) :
    (a ++ b).dropWhile p = b.dropWhile p := by
  induction a with
  | nil => simp
  | cons x a ih =>
      have hx : p x = true := h x (by simp)
      simp only [List.cons_append, List.dropWhile_cons, hx, if_true]
      exact ih (fun c hc => h c (by simp [hc]))

theorem resolveC_append_noLBrace (ctx : List (String × JValue)) :
    ∀ (u w : List Char), (∀ c ∈ u, c ≠ '{') →
      resolveC ctx (u ++ w) = u ++ resolveC ctx w
  | [], w, _ => by simp
  | c :: u, w, h => by
      have hc : c ≠ '{' := h c (by simp)
      rw [List.cons_append, resolveC_copy ctx c (u ++ w) (Or.inl hc)]
      rw [resolveC_append_noLBrace ctx u w (fun d hd => h d (by simp [hd]))]
      rfl

/-- No regex match can begin at this suffix: the first closing brace, if
any, is not immediately followed by a second one. -/
def NoMatchTail (u : List Char) : Prop :=
  ∀ t, u.dropWhile (fun c => c ≠ '}') ≠ '}' :: '}' :: t

theorem noMatchTail_not_matchShape (u : List Char) (h : NoMatchTail u) : ¬ MatchShape u := by
  rintro ⟨k, ks, t, htk, hdw⟩
  exact h t hdw

theorem not_matchShape_cases (u : List Char) (h : ¬ MatchShape u) :
    u.takeWhile (fun c => c ≠ '}') = [] ∨ NoMatchTail u := by
  rcases htk : u.takeWhile (fun c => c ≠ '}') with _ | ⟨k, ks⟩
  · exact Or.inl rfl
  · right
    intro t hdw
    exact h ⟨k, ks, t, htk, hdw⟩

theorem takeWhile_ne_cons (c : Char) (r : List Char) (h : c ≠ '}') :
    (c :: r).takeWhile (fun c => c ≠ '}') = c :: r.takeWhile (fun c => c ≠ '}') := by
  rw [List.takeWhile_cons]
  simp [h]

theorem takeWhile_close_cons (r : List Char) :
    ('}' :: r).takeWhile (fun c => c ≠ '}') = [] := by
  rw [List.takeWhile_cons]
  simp

theorem dropWhile_ne_cons (c : Char) (r : List Char) (h : c ≠ '}') :
    (c :: r).dropWhile (fun c => c ≠ '}') = r.dropWhile (fun c => c ≠ '}') := by
  rw [List.dropWhile_cons]
  simp [h]

theorem dropWhile_close_cons (r : List Char) :
    ('}' :: r).dropWhile (fun c => c ≠ '}') = '}' :: r := by
  rw [List.dropWhile_cons]
  simp

theorem resolveC_hit_some (ctx : List (String × JValue)) (rest : List Char)
    (k : Char) (ks rest₂ : List Char) (v : JValue)
    (htk : rest.takeWhile (fun c => c ≠ '}') = k :: ks)
    (hdw : rest.dropWhile (fun c => c ≠ '}') = '}' :: '}' :: rest₂)
    (hf : ctxFind ctx (String.mk (trimChars (k :: ks))) = some v) :
    resolveC ctx ('{' :: '{' :: rest) = (jToString v).data ++ resolveC ctx rest₂ := by
  rw [resolveC_hit ctx rest k ks rest₂ htk hdw, hf]

theorem resolveC_hit_none (ctx : List (String × JValue)) (rest : List Char)
    (k : Char) (ks rest₂ : List Char)
    (htk : rest.takeWhile (fun c => c ≠ '}') = k :: ks)
    (hdw : rest.dropWhile (fun c => c ≠ '}') = '}' :: '}' :: rest₂)
    (hf : ctxFind ctx (String.mk (trimChars (k :: ks))) = none) :
    resolveC ctx ('{' :: '{' :: rest) =
      '{' :: '{' :: (trimChars (k :: ks) ++ '}' :: '}' :: resolveC ctx rest₂) := by
  rw [resolveC_hit ctx rest k ks rest₂ htk hdw, hf]
theorem resolveC_head_ne_rbrace (ctx : List (String × JValue)) (hg : GoodCtx ctx)
    (u : List Char) (hu : ∀ c, u.head? = some c → c ≠ '}') :
    ∀ c, (resolveC ctx u).head? = some c → c ≠ '}' := by
  rcases u with _ | ⟨a, r⟩
  · rw [resolveC_nil]
    intro c hc
    simp at hc
  · by_cases hsh : a = '{' ∧ r.head? = some '{'
    · obtain ⟨rfl, hh⟩ := hsh
      rcases r with _ | ⟨a₂, r⟩
      · simp at hh
      · simp only [List.head?_cons, Option.some.injEq] at hh
        subst hh
        by_cases hm : MatchShape r
        · obtain ⟨k, ks, rest₂, htk, hdw⟩ := hm
          rcases hf : ctxFind ctx (String.mk (trimChars (k :: ks))) with _ | v
          · rw [resolveC_hit_none ctx r k ks rest₂ htk hdw hf]
            intro c hc
            simp only [List.head?_cons, Option.some.injEq] at hc
            subst hc
            decide
          · rw [resolveC_hit_some ctx r k ks rest₂ v htk hdw hf]
            obtain ⟨key, hmem⟩ := ctxFind_mem ctx _ v hf
            obtain ⟨hne, hnb⟩ := hg (key, v) hmem
            rcases hvd : (jToString v).data with _ | ⟨d, ds⟩
            · exact absurd hvd hne
            · intro c hc
              simp only [List.cons_append, List.head?_cons, Option.some.injEq] at hc
              subst hc
              exact (hnb d (by rw [hvd]; exact List.mem_cons_self d ds)).2
        · rw [resolveC_fail ctx r hm]
          intro c hc
          simp only [List.head?_cons, Option.some.injEq] at hc
          subst hc
          decide
    · have hor : a ≠ '{' ∨ r.head? ≠ some '{' := by
        by_cases ha : a = '{'
        · exact Or.inr fun hhd => hsh ⟨ha, hhd⟩
        · exact Or.inl ha
      rw [resolveC_copy ctx a r hor]
      intro c hc
      simp only [List.head?_cons, Option.some.injEq] at hc
      subst hc
      exact hu a rfl

theorem noMatchTail_resolveC (ctx : List (String × JValue)) (hg : GoodCtx ctx) :
    ∀ (n : Nat) (u : List Char), u.length ≤ n → NoMatchTail u →
      NoMatchTail (resolveC ctx u) := by
  intro n
  induction n with
  | zero =>
      intro u hu _
      have hnil : u = [] := List.length_eq_zero.mp (Nat.le_zero.mp hu)
      subst hnil
      rw [resolveC_nil]
      intro t hdw
      simp at hdw
  | succ n ih =>
      intro u hu hnm
      rcases u with _ | ⟨c, r⟩
      · rw [resolveC_nil]
        intro t hdw
        simp at hdw
      · simp only [List.length_cons] at hu
        by_cases hc : c = '}'
        · subst hc
          have hr : ∀ c', r.head? = some c' → c' ≠ '}' := by
            intro c' hh hq
            subst hq
            rcases r with _ | ⟨x, r'⟩
            · simp at hh
            · simp only [List.head?_cons, Option.some.injEq] at hh
              subst hh
              exact hnm r' (dropWhile_close_cons ('}' :: r'))
          rw [resolveC_copy ctx '}' r (Or.inl (by decide))]
          intro t hdw
          rw [dropWhile_close_cons] at hdw
          injection hdw with e₁ e₂
          have hhd : (resolveC ctx r).head? = some '}' := by
            rw [e₂]
            rfl
          exact resolveC_head_ne_rbrace ctx hg r hr '}' hhd rfl
        · have hnr : NoMatchTail r := by
            intro t hdw
            exact hnm t (by rw [dropWhile_ne_cons c r hc]; exact hdw)
          by_cases hsh : c = '{' ∧ r.head? = some '{'
          · obtain ⟨rfl, hh⟩ := hsh
            rcases r with _ | ⟨c₂, r₂⟩
            · simp at hh
            · simp only [List.head?_cons, Option.some.injEq] at hh
              subst hh
              simp only [List.length_cons] at hu
              have hnr₂ : NoMatchTail r₂ := by
                intro t hdw
                exact hnr t (by rw [dropWhile_ne_cons '{' r₂ (by decide)]; exact hdw)
              have hnoM : ¬ MatchShape r₂ := noMatchTail_not_matchShape r₂ hnr₂
              rw [resolveC_fail ctx r₂ hnoM]
              intro t hdw
              rw [dropWhile_ne_cons '{' _ (by decide), dropWhile_ne_cons '{' _ (by decide)] at hdw
              exact ih r₂ (by omega) hnr₂ t hdw
          · have hor : c ≠ '{' ∨ r.head? ≠ some '{' := by
              by_cases ha : c = '{'
              · exact Or.inr fun hhd => hsh ⟨ha, hhd⟩
              · exact Or.inl ha
            rw [resolveC_copy ctx c r hor]
            intro t hdw
            rw [dropWhile_ne_cons c _ hc] at hdw
            exact ih r (by omega) hnr t hdw

theorem not_matchShape_resolveC (ctx : List (String × JValue)) (hg : GoodCtx ctx)
    (u : List Char) (h : ¬ MatchShape u) : ¬ MatchShape (resolveC ctx u) := by
  rcases not_matchShape_cases u h with ht | hnm
  · rcases u with _ | ⟨c, r⟩
    · rw [resolveC_nil]
      rintro ⟨k, ks, t, htk, _⟩
      simp at htk
    · have hc : c = '}' := by
        by_contra hcc
        rw [takeWhile_ne_cons c r hcc] at ht
        simp at ht
      subst hc
      rw [resolveC_copy ctx '}' r (Or.inl (by decide))]
      rintro ⟨k, ks, t, htk, hdw⟩
      rw [takeWhile_close_cons] at htk
      exact List.noConfusion htk
  · exact noMatchTail_not_matchShape _
      (noMatchTail_resolveC ctx hg u.length u le_rfl hnm)

theorem resolveC_idem (ctx : List (String × JValue)) (hg : GoodCtx ctx) :
    ∀ (n : Nat) (s : List Char), s.length ≤ n →
      resolveC ctx (resolveC ctx s) = resolveC ctx s := by
  intro n
  induction n with
  | zero =>
      intro s hs
      have hnil : s = [] := List.length_eq_zero.mp (Nat.le_zero.mp hs)
      subst hnil
      rw [resolveC_nil, resolveC_nil]
  | succ n ih =>
      intro s hs
      rcases s with _ | ⟨c, rest⟩
      · rw [resolveC_nil, resolveC_nil]
      · simp only [List.length_cons] at hs
        by_cases hsh : c = '{' ∧ rest.head? = some '{'
        · obtain ⟨rfl, hh⟩ := hsh
          rcases rest with _ | ⟨c₂, rest⟩
          · simp at hh
          · simp only [List.head?_cons, Option.some.injEq] at hh
            subst hh
            simp only [List.length_cons] at hs
            by_cases hm : MatchShape rest
            · obtain ⟨k, ks, rest₂, htk, hdw⟩ := hm
              have hlen : rest₂.length + 2 ≤ rest.length := by
                have := length_take_drop_split (fun c => c ≠ '}') rest
                rw [htk, hdw] at this
                simp at this
                omega
              have hkeyne : ∀ c ∈ (k :: ks), c ≠ '}' := by
                intro c hc
                have := List.mem_takeWhile_imp (htk ▸ hc)
                simpa using this
              have htrim_ne : ∀ c ∈ trimChars (k :: ks), c ≠ '}' :=
                fun c hc => hkeyne c (trimChars_subset _ c hc)
              rcases hf : ctxFind ctx (String.mk (trimChars (k :: ks))) with _ | v
              · rw [resolveC_hit_none ctx rest k ks rest₂ htk hdw hf]
                rcases htr : trimChars (k :: ks) with _ | ⟨k', ks'⟩
                · have hnm2 : ¬ MatchShape ('}' :: '}' :: resolveC ctx rest₂) := by
                    rintro ⟨a, as, t, htk2, _⟩
                    rw [takeWhile_close_cons] at htk2
                    exact List.noConfusion htk2
                  rw [List.nil_append]
                  rw [resolveC_fail ctx _ hnm2]
                  rw [resolveC_copy ctx '}' _ (Or.inl (by decide))]
                  rw [resolveC_copy ctx '}' _ (Or.inl (by decide))]
                  rw [ih rest₂ (by omega)]
                · have hptrue : ∀ c ∈ (k' :: ks'), (fun c => decide (c ≠ '}')) c = true := by
                    intro c hc
                    have : c ≠ '}' := by
                      apply htrim_ne
                      rw [htr]
                      exact hc
                    simpa using this
                  have htk2 : ((k' :: ks') ++ '}' :: '}' :: resolveC ctx rest₂).takeWhile
                      (fun c => c ≠ '}') = k' :: ks' := by
                    rw [takeWhile_append_all _ _ _ hptrue, takeWhile_close_cons, List.append_nil]
                  have hdw2 : ((k' :: ks') ++ '}' :: '}' :: resolveC ctx rest₂).dropWhile
                      (fun c => c ≠ '}') = '}' :: '}' :: resolveC ctx rest₂ := by
                    rw [dropWhile_append_all _ _ _ hptrue, dropWhile_close_cons]
                  have htr_idem : trimChars (k' :: ks') = k' :: ks' := by
                    conv_lhs => rw [← htr]
                    rw [trimChars_idem, htr]
                  have hf2 : ctxFind ctx (String.mk (trimChars (k' :: ks'))) = none := by
                    rw [htr_idem, ← htr]
                    exact hf
                  rw [resolveC_hit_none ctx _ k' ks' (resolveC ctx rest₂) htk2 hdw2 hf2]
                  rw [htr_idem]
                  rw [ih rest₂ (by omega)]
              · rw [resolveC_hit_some ctx rest k ks rest₂ v htk hdw hf]
                obtain ⟨key, hmem⟩ := ctxFind_mem ctx _ v hf
                obtain ⟨hne, hnb⟩ := hg (key, v) hmem
                rw [resolveC_append_noLBrace ctx _ _ (fun c hc => (hnb c hc).1)]
                rw [ih rest₂ (by omega)]
            · rw [resolveC_fail ctx rest hm]
              have hm2 := not_matchShape_resolveC ctx hg rest hm
              rw [resolveC_fail ctx _ hm2]
              rw [ih rest (by omega)]
        · have hor : c ≠ '{' ∨ rest.head? ≠ some '{' := by
            by_cases ha : c = '{'
            · exact Or.inr fun hhd => hsh ⟨ha, hhd⟩
            · exact Or.inl ha
          rw [resolveC_copy ctx c rest hor]
          have hor2 : c ≠ '{' ∨ (resolveC ctx rest).head? ≠ some '{' := by
            rcases hor with h | h
            · exact Or.inl h
            · right
              rcases rest with _ | ⟨d, r⟩
              · rw [resolveC_nil]
                simp
              · have hd : d ≠ '{' := by simpa using h
                rw [resolveC_copy ctx d r (Or.inl hd)]
                simpa using hd
          rw [resolveC_copy ctx c _ hor2]
          rw [ih rest (by omega)]

/-!  ### Unfolding equations for `resolveConfig` and idempotence -/

theorem resolveConfig_vstr (ctx : List (String × JValue)) (s : String) :
    resolveConfig (.vstr s) ctx = .vstr (resolveCStr ctx s) := by
  simp [resolveConfig]

theorem resolveConfig_vnum (ctx : List (String × JValue)) (n : Int) :
    resolveConfig (.vnum n) ctx = .vnum n := by
  simp [resolveConfig]

theorem resolveConfig_vbool (ctx : List (String × JValue)) (b : Bool) :
    resolveConfig (.vbool b) ctx = .vbool b := by
  simp [resolveConfig]

theorem resolveConfig_vnull (ctx : List (String × JValue)) :
    resolveConfig .vnull ctx = .vnull := by
  simp [resolveConfig]

theorem resolveConfig_varr (ctx : List (String × JValue)) (xs : List JValue) :
    resolveConfig (.varr xs) ctx = .varr (resolveConfigArr xs ctx) := by
  simp [resolveConfig]

theorem resolveConfig_vobj (ctx : List (String × JValue)) (kvs : List (String × JValue)) :
    resolveConfig (.vobj kvs) ctx = .vobj (resolveConfigMap kvs ctx) := by
  simp [resolveConfig]

theorem resolveConfigArr_nil (ctx : List (String × JValue)) : resolveConfigArr [] ctx = [] := by
  simp [resolveConfigArr]

theorem resolveConfigArr_cons (ctx : List (String × JValue)) (x : JValue) (xs : List JValue) :
    resolveConfigArr (x :: xs) ctx = resolveConfig x ctx :: resolveConfigArr xs ctx := by
  simp [resolveConfigArr]

theorem resolveConfigMap_nil (ctx : List (String × JValue)) : resolveConfigMap [] ctx = [] := by
  simp [resolveConfigMap]

theorem resolveConfigMap_cons (ctx : List (String × JValue)) (k : String) (v : JValue)
    (kvs : List (String × JValue)) :
    resolveConfigMap ((k, v) :: kvs) ctx = (k, resolveConfig v ctx) :: resolveConfigMap kvs ctx := by
  simp [resolveConfigMap]

theorem resolveCStr_idem (ctx : List (String × JValue)) (hg : GoodCtx ctx) (s : String) :
    resolveCStr ctx (resolveCStr ctx s) = resolveCStr ctx s := by
  unfold resolveCStr
  have hdata : (String.mk (resolveC ctx s.data)).data = resolveC ctx s.data := rfl
  rw [hdata]
  rw [resolveC_idem ctx hg s.data.length s.data le_rfl]

mutual
theorem resolveConfig_idem (ctx : List (String × JValue)) (hg : GoodCtx ctx) :
    ∀ x : JValue, resolveConfig (resolveConfig x ctx) ctx = resolveConfig x ctx
  | .vstr s => by
      rw [resolveConfig_vstr, resolveConfig_vstr, resolveCStr_idem ctx hg]
  | .vnum n => by rw [resolveConfig_vnum, resolveConfig_vnum]
  | .vbool b => by rw [resolveConfig_vbool, resolveConfig_vbool]
  | .vnull => by rw [resolveConfig_vnull, resolveConfig_vnull]
  | .varr xs => by
      rw [resolveConfig_varr, resolveConfig_varr, resolveConfigArr_idem ctx hg xs]
  | .vobj kvs => by
      rw [resolveConfig_vobj, resolveConfig_vobj, resolveConfigMap_idem ctx hg kvs]

theorem resolveConfigArr_idem (ctx : List (String × JValue)) (hg : GoodCtx ctx) :
    ∀ xs : List JValue, resolveConfigArr (resolveConfigArr xs ctx) ctx = resolveConfigArr xs ctx
  | [] => by rw [resolveConfigArr_nil, resolveConfigArr_nil]
  | x :: xs => by
      rw [resolveConfigArr_cons, resolveConfigArr_cons, resolveConfig_idem ctx hg x,
          resolveConfigArr_idem ctx hg xs]

theorem resolveConfigMap_idem (ctx : List (String × JValue)) (hg : GoodCtx ctx) :
    ∀ kvs : List (String × JValue),
      resolveConfigMap (resolveConfigMap kvs ctx) ctx = resolveConfigMap kvs ctx
  | [] => by rw [resolveConfigMap_nil, resolveConfigMap_nil]
  | (k, v) :: kvs => by
      rw [resolveConfigMap_cons, resolveConfigMap_cons, resolveConfig_idem ctx hg v,
          resolveConfigMap_idem ctx hg kvs]
end

theorem resolveConfigArr_map (ctx : List (String × JValue)) :
    ∀ xs : List JValue, resolveConfigArr xs ctx = xs.map (fun x => resolveConfig x ctx)
  | [] => by rw [resolveConfigArr_nil]; rfl
  | x :: xs => by
      rw [resolveConfigArr_cons, resolveConfigArr_map ctx xs]
      rfl

theorem resolveConfigMap_map (ctx : List (String × JValue)) :
    ∀ kvs : List (String × JValue),
      resolveConfigMap kvs ctx = kvs.map (fun kv => (kv.1, resolveConfig kv.2 ctx))
  | [] => by rw [resolveConfigMap_nil]; rfl
  | (k, v) :: kvs => by
      rw [resolveConfigMap_cons, resolveConfigMap_map ctx kvs]
      rfl

theorem resolveC_keptToken (ctx : List (String × JValue)) (k : Char) (ks rest : List Char)
    (hkey : ∀ c ∈ k :: ks, c ≠ '}')
    (hf : ctxFind ctx (String.mk (trimChars (k :: ks))) = none) :
    resolveC ctx ('{' :: '{' :: ((k :: ks) ++ '}' :: '}' :: rest)) =
      '{' :: '{' :: (trimChars (k :: ks) ++ '}' :: '}' :: resolveC ctx rest) := by
  have hptrue : ∀ c ∈ (k :: ks), (fun c => decide (c ≠ '}')) c = true := by
    intro c hc
    simpa using hkey c hc
  have htk : ((k :: ks) ++ '}' :: '}' :: rest).takeWhile (fun c => c ≠ '}') = k :: ks := by
    rw [takeWhile_append_all _ _ _ hptrue, takeWhile_close_cons, List.append_nil]
  have hdw : ((k :: ks) ++ '}' :: '}' :: rest).dropWhile (fun c => c ≠ '}') =
      '}' :: '}' :: rest := by
    rw [dropWhile_append_all _ _ _ hptrue, dropWhile_close_cons]
  exact resolveC_hit_none ctx _ k ks rest htk hdw hf

/-- C6 counterexample: the claim says an unresolved token is left in the
output as the original token, unchanged.  The code rewrites the token
around the trimmed identifier, so a token with inner padding comes out
different from the original. -/
theorem claim_C6_counterexample :
    resolveCStr [] "Hello \x7b\x7b missing \x7d\x7d" ≠ "Hello \x7b\x7b missing \x7d\x7d" ∧
    resolveCStr [] "Hello \x7b\x7b missing \x7d\x7d" = "Hello \x7b\x7bmissing\x7d\x7d" := by
  decide

/-- C6 (amended): a placeholder token whose trimmed identifier is not a
context key is re-emitted as the token rebuilt around the trimmed
identifier (identical to the original exactly when the identifier
carries no surrounding whitespace) and no error is raised; in
particular resolving the string Hello-double-brace-missing against the
empty context returns it unchanged.  Sequences are resolved element-wise
preserving order, maps value-wise preserving keys, and any non-string,
non-sequence, non-map value is returned unchanged. -/
theorem claim_C6 :
    (∀ (ctx : List (String × JValue)) (k : Char) (ks rest : List Char),
        (∀ c ∈ k :: ks, c ≠ '}') →
        ctxFind ctx (String.mk (trimChars (k :: ks))) = none →
        resolveC ctx ('{' :: '{' :: ((k :: ks) ++ '}' :: '}' :: rest)) =
          '{' :: '{' :: (trimChars (k :: ks) ++ '}' :: '}' :: resolveC ctx rest)) ∧
    resolveCStr [] "Hello \x7b\x7bmissing\x7d\x7d" = "Hello \x7b\x7bmissing\x7d\x7d" ∧
    (∀ (ctx : List (String × JValue)) (xs : List JValue),
        resolveConfig (.varr xs) ctx = .varr (xs.map (fun x => resolveConfig x ctx))) ∧
    (∀ (ctx kvs : List (String × JValue)),
        resolveConfig (.vobj kvs) ctx =
          .vobj (kvs.map (fun kv => (kv.1, resolveConfig kv.2 ctx)))) ∧
    (∀ (ctx : List (String × JValue)) (n : Int), resolveConfig (.vnum n) ctx = .vnum n) ∧
    (∀ (ctx : List (String × JValue)) (b : Bool), resolveConfig (.vbool b) ctx = .vbool b) ∧
    (∀ ctx : List (String × JValue), resolveConfig .vnull ctx = .vnull) := by
  refine ⟨resolveC_keptToken, by decide, ?_, ?_,
    resolveConfig_vnum, resolveConfig_vbool, resolveConfig_vnull⟩
  · intro ctx xs
    rw [resolveConfig_varr, resolveConfigArr_map]
  · intro ctx kvs
    rw [resolveConfig_vobj, resolveConfigMap_map]

/-- C6 witness: the kept-token clause of the amended claim evaluated at
a concrete unresolved placeholder. -/
theorem claim_C6_witness :
    resolveC [] ('{' :: '{' :: (['m', 'i', 's', 's'] ++ '}' :: '}' :: [])) =
      '{' :: '{' :: (trimChars ['m', 'i', 's', 's'] ++ '}' :: '}' :: resolveC [] []) :=
  claim_C6.1 [] 'm' ['i', 's', 's'] [] (by decide) (by decide)

/-- C7 counterexample: resolution is not idempotent even when no
resolved value contains template syntax.  A context value holding a
single closing brace can complete a stray open token from the first
pass into a resolvable placeholder for the second pass. -/
theorem claim_C7_counterexample :
    (∀ p ∈ [("k", JValue.vstr "OK"), ("j", JValue.vstr "\x7dZ")],
        ∀ c ∈ (jToString p.2).data, c ≠ '{') ∧
    resolveCStr [("k", JValue.vstr "OK"), ("j", JValue.vstr "\x7dZ")]
        (resolveCStr [("k", JValue.vstr "OK"), ("j", JValue.vstr "\x7dZ")]
          "\x7b\x7bk\x7d\x7b\x7bj\x7d\x7d") ≠
      resolveCStr [("k", JValue.vstr "OK"), ("j", JValue.vstr "\x7dZ")]
        "\x7b\x7bk\x7d\x7b\x7bj\x7d\x7d" := by
  decide

/-- C7 (amended): the template resolver is idempotent whenever every
context value stringifies to a nonempty string that contains no brace
character at all: resolve(resolve(x, ctx), ctx) equals
resolve(x, ctx). -/
theorem claim_C7 (ctx : List (String × JValue)) (hg : GoodCtx ctx) (x : JValue) :
    resolveConfig (resolveConfig x ctx) ctx = resolveConfig x ctx :=
  resolveConfig_idem ctx hg x

/-- C7 witness: idempotence at a concrete context and template. -/
theorem claim_C7_witness :
    GoodCtx [("name", JValue.vstr "world")] ∧
    resolveConfig
        (resolveConfig (JValue.vstr "Hello \x7b\x7bname\x7d\x7d") [("name", JValue.vstr "world")])
        [("name", JValue.vstr "world")] =
      resolveConfig (JValue.vstr "Hello \x7b\x7bname\x7d\x7d") [("name", JValue.vstr "world")] :=
  ⟨by unfold GoodCtx; decide, claim_C7 [("name", JValue.vstr "world")] (by unfold GoodCtx; decide)
    (JValue.vstr "Hello \x7b\x7bname\x7d\x7d")⟩

/-!  ## Retry Wrapper (`withRetry` in the source)

`fn` is the wrapped work closure: a JS closure may mutate its captured
environment even on an attempt that throws, so the model passes an
explicit environment `σ` through every invocation and indexes `fn` by
the invocation number.  `pushLog` models `logs.push` on the log array
shared between the wrapper and the closure.  The structural `fuel`
argument equals MAX_RETRIES minus the current attempt number at every
call; the loop guard `attempt < MAX_RETRIES` is the condition from the
source and the fuel is never exhausted. -/

def MAX_RETRIES : Nat := 3

def BASE_DELAY : Nat := 1000

/-- The warning line pushed after a failed attempt. -/
def retryWarning (op msg : String) (attempt delay : Nat) : String :=
  "⚠️ Error in " ++ op ++ ": " ++ msg ++ ". Retrying (" ++ toString attempt ++ "/" ++
    toString MAX_RETRIES ++ ") in " ++ toString delay ++ "ms..."

/-- Everything observable about one run of the retry wrapper: the
returned or rethrown outcome, how many times the action was invoked,
the warning lines pushed, the backoff waits actually performed (in
milliseconds), and the final state of the mutable environment. -/
structure RetryResult (σ α : Type) where
  outcome : Except String α
  calls : Nat
  warnings : List String
  waits : List Nat
  state : σ

/-- The while loop of `withRetry`. -/
def withRetryLoop {σ α : Type} (fn : Nat → σ → Except String α × σ) (pushLog : σ → String → σ)
    (op : String) :
    Nat → Nat → Nat → List String → List Nat → σ → RetryResult σ α
  | 0, _, calls, warnings, waits, s => ⟨.error "Unreachable", calls, warnings, waits, s⟩
  | fuel + 1, attempt, calls, warnings, waits, s =>
      if attempt < MAX_RETRIES then
        match fn calls s with
        | (.ok a, s') => ⟨.ok a, calls + 1, warnings, waits, s'⟩
        | (.error msg, s') =>
            let attempt' := attempt + 1
            let delay := BASE_DELAY * 2 ^ (attempt' - 1)
            let w := retryWarning op msg attempt' delay
            let s'' := pushLog s' w
            if MAX_RETRIES ≤ attempt' then
              ⟨.error msg, calls + 1, warnings ++ [w], waits, s''⟩
            else
              withRetryLoop fn pushLog op fuel attempt' (calls + 1) (warnings ++ [w])
                (waits ++ [delay]) s''
      else ⟨.error "Unreachable", calls, warnings, waits, s⟩

/-- `withRetry(fn, operationName, logs)`. -/
def withRetry {σ α : Type} (fn : Nat → σ → Except String α × σ) (pushLog : σ → String → σ)
    (op : String) (s₀ : σ) : RetryResult σ α :=
  withRetryLoop fn pushLog op MAX_RETRIES 0 0 [] [] s₀

/-- C2: the retry wrapper invokes the wrapped action at most
MAX_RETRIES = 3 times and returns the first successful result; each
failed attempt appends exactly one warning line; a backoff wait of
BASE_DELAY * 2^(k-1) milliseconds (1000 then 2000) happens only before
a re-invocation, and after the third failed attempt the final error is
rethrown with no fourth invocation and no further wait. -/
theorem claim_C2 (σ α : Type) (fn : Nat → σ → Except String α × σ)
    (pushLog : σ → String → σ) (op : String) (s₀ : σ) :
    (withRetry fn pushLog op s₀).calls ≤ MAX_RETRIES ∧
    (∀ a s₁, fn 0 s₀ = (.ok a, s₁) →
        withRetry fn pushLog op s₀ = ⟨.ok a, 1, [], [], s₁⟩) ∧
    (∀ e₁ s₁ a s₂, fn 0 s₀ = (.error e₁, s₁) →
        fn 1 (pushLog s₁ (retryWarning op e₁ 1 1000)) = (.ok a, s₂) →
        withRetry fn pushLog op s₀ =
          ⟨.ok a, 2, [retryWarning op e₁ 1 1000], [1000], s₂⟩) ∧
    (∀ e₁ s₁ e₂ s₂ a s₃, fn 0 s₀ = (.error e₁, s₁) →
        fn 1 (pushLog s₁ (retryWarning op e₁ 1 1000)) = (.error e₂, s₂) →
        fn 2 (pushLog s₂ (retryWarning op e₂ 2 2000)) = (.ok a, s₃) →
        withRetry fn pushLog op s₀ =
          ⟨.ok a, 3, [retryWarning op e₁ 1 1000, retryWarning op e₂ 2 2000], [1000, 2000], s₃⟩) ∧
    (∀ e₁ s₁ e₂ s₂ e₃ s₃, fn 0 s₀ = (.error e₁, s₁) →
        fn 1 (pushLog s₁ (retryWarning op e₁ 1 1000)) = (.error e₂, s₂) →
        fn 2 (pushLog s₂ (retryWarning op e₂ 2 2000)) = (.error e₃, s₃) →
        withRetry fn pushLog op s₀ =
          ⟨.error e₃, 3,
            [retryWarning op e₁ 1 1000, retryWarning op e₂ 2 2000, retryWarning op e₃ 3 4000],
            [1000, 2000], pushLog s₃ (retryWarning op e₃ 3 4000)⟩) := by
  refine ⟨?_, ?_, ?_, ?_, ?_⟩
  · rcases h0 : fn 0 s₀ with ⟨o0, s1⟩
    rcases o0 with e1 | a
    · rcases h1 : fn 1 (pushLog s1 (retryWarning op e1 1 1000)) with ⟨o1, s2⟩
      rcases o1 with e2 | a
      · rcases h2 : fn 2 (pushLog s2 (retryWarning op e2 2 2000)) with ⟨o2, s3⟩
        rcases o2 with e3 | a
        · simp [withRetry, withRetryLoop, MAX_RETRIES, BASE_DELAY, h0, h1, h2]
        · simp [withRetry, withRetryLoop, MAX_RETRIES, BASE_DELAY, h0, h1, h2]
      · simp [withRetry, withRetryLoop, MAX_RETRIES, BASE_DELAY, h0, h1]
    · simp [withRetry, withRetryLoop, MAX_RETRIES, BASE_DELAY, h0]
  · intro a s₁ h0
    simp [withRetry, withRetryLoop, MAX_RETRIES, BASE_DELAY, h0]
  · intro e₁ s₁ a s₂ h0 h1
    simp [withRetry, withRetryLoop, MAX_RETRIES, BASE_DELAY, h0, h1]
  · intro e₁ s₁ e₂ s₂ a s₃ h0 h1 h2
    simp [withRetry, withRetryLoop, MAX_RETRIES, BASE_DELAY, h0, h1, h2]
  · intro e₁ s₁ e₂ s₂ e₃ s₃ h0 h1 h2
    simp [withRetry, withRetryLoop, MAX_RETRIES, BASE_DELAY, h0, h1, h2]

/-- C2 witness: a handler failing twice and succeeding on the third
invocation, evaluated concretely. -/
theorem claim_C2_witness :
    (fun (k : Nat) (_ : Unit) => (if k ≤ 1 then (Except.error "boom" : Except String Nat)
        else .ok 7, ())) 0 () = (.error "boom", ()) ∧
    withRetry (fun (k : Nat) (_ : Unit) => (if k ≤ 1 then (Except.error "boom" : Except String Nat)
        else .ok 7, ())) (fun s _ => s) "step" () =
      ⟨.ok 7, 3, [retryWarning "step" "boom" 1 1000, retryWarning "step" "boom" 2 2000],
        [1000, 2000], ()⟩ :=
  ⟨rfl, (claim_C2 Unit Nat _ (fun s _ => s) "step" ()).2.2.2.1 "boom" () "boom" () 7 ()
    rfl rfl rfl⟩

/-!  ## Data model of the workflow graph -/

/-- The node kinds of the workflow graph. -/
inductive NodeType : Type where
  | TRIGGER
  | ACTION
  | CONDITION
  | AI
  | SCRIPT
deriving DecidableEq

/-- The string value of the TS enum member. -/
def nodeTypeStr : NodeType → String
  | .TRIGGER => "TRIGGER"
  | .ACTION => "ACTION"
  | .CONDITION => "CONDITION"
  | .AI => "AI"
  | .SCRIPT => "SCRIPT"

/-- A workflow node (the visual x and y coordinates are omitted: the
engine never reads them). -/
structure WorkflowNode : Type where
  id : String
  type : NodeType
  service : String
  label : String
  config : JObj

/-- A directed edge of the workflow graph; condition branches carry an
optional label. -/
structure WorkflowEdge : Type where
  id : String
  source : String
  target : String
  label : Option String
deriving DecidableEq

/-!  ## Action Dispatcher (`processNode` in the source)

The effectful parts of `doWork` are parameters, indexed by the
invocation number of the retried work closure: the script sandbox
(`new Function` applied to user code, not expressible in a shallow
embedding), the AI call `performAIAction`, and the random Shopify
fields (`Math.random`).  Timing (simulated delays, durations) is not
modelled. -/

/-- Oracle supplying the nondeterministic results used by `doWork`. -/
structure EffectOracle : Type where
  script : Nat → JObj → Except String JValue
  ai : Nat → String → String → Except String String
  shopifyFail : Nat → Bool
  shopifyOrderId : Nat → String
  shopifyTotal : Nat → Int

/-!  ### JS numbers for the condition comparisons

The condition operators coerce their operands with JS `ToNumber` and
`parseFloat`.  The model is exact decimal arithmetic: a non-NaN number
is a mantissa times a power of ten, or one of the two infinities, and
`none` stands for NaN.  IEEE-754 rounding of numerals to doubles is not
modelled: a numeral denotes its exact value (`vnum` keeps the integer
model of a JS number used everywhere else in this file). -/

/-- A non-NaN JS number: the exact decimal `mant * 10 ^ expo`, or an
infinity. -/
inductive JNum : Type where
  | fin (mant : Int) (expo : Int)
  | pinf
  | ninf
deriving DecidableEq

/-- The natural number denoted by a list of decimal digits. -/
def digitsVal (cs : List Char) : Nat :=
  cs.foldl (fun acc c => acc * 10 + (c.toNat - 48)) 0

/-- Hexadecimal digit test. -/
def isHexDigitC (c : Char) : Bool :=
  c.isDigit ∨ ('a' ≤ c ∧ c ≤ 'f') ∨ ('A' ≤ c ∧ c ≤ 'F')

/-- The value of one hexadecimal digit. -/
def hexDigitVal (c : Char) : Nat :=
  if c.isDigit then c.toNat - 48
  else if 'a' ≤ c ∧ c ≤ 'f' then c.toNat - 87
  else c.toNat - 55

/-- The natural number denoted by digits in the given base. -/
def baseVal (base : Nat) (cs : List Char) : Nat :=
  cs.foldl (fun acc c => acc * base + hexDigitVal c) 0

/-- The exact decimal denoted by a sign, integer digits, fraction
digits and a decimal exponent. -/
def decToFin (sign : Int) (intPart fracPart : List Char) (expo : Int) : JNum :=
  .fin (sign * Int.ofNat (digitsVal (intPart ++ fracPart))) (expo - fracPart.length)

/-- JS `ToNumber` of a string: trim; empty is 0; the `Infinity` forms;
unsigned `0x` / `0o` / `0b` integer literals; otherwise the whole
string must be a signed decimal numeral with optional fraction and
exponent; anything else is NaN. -/
def jsStrToNum (s : String) : Option JNum :=
  let cs := trimChars s.data
  if cs.isEmpty then some (.fin 0 0)
  else if cs = "Infinity".data ∨ cs = "+Infinity".data then some .pinf
  else if cs = "-Infinity".data then some .ninf
  else if cs.take 2 = ['0', 'x'] ∨ cs.take 2 = ['0', 'X'] then
    let ds := cs.drop 2
    if ¬ ds.isEmpty ∧ ds.all isHexDigitC then some (.fin (Int.ofNat (baseVal 16 ds)) 0)
    else none
  else if cs.take 2 = ['0', 'o'] ∨ cs.take 2 = ['0', 'O'] then
    let ds := cs.drop 2
    if ¬ ds.isEmpty ∧ ds.all (fun c => '0' ≤ c ∧ c ≤ '7') then
      some (.fin (Int.ofNat (baseVal 8 ds)) 0)
    else none
  else if cs.take 2 = ['0', 'b'] ∨ cs.take 2 = ['0', 'B'] then
    let ds := cs.drop 2
    if ¬ ds.isEmpty ∧ ds.all (fun c => c = '0' ∨ c = '1') then
      some (.fin (Int.ofNat (baseVal 2 ds)) 0)
    else none
  else
    let sign : Int := if cs.head? = some '-' then -1 else 1
    let cs₁ := if cs.head? = some '-' ∨ cs.head? = some '+' then cs.tail else cs
    let ip := cs₁.takeWhile Char.isDigit
    let rest₁ := cs₁.dropWhile Char.isDigit
    let fp := if rest₁.head? = some '.' then rest₁.tail.takeWhile Char.isDigit else []
    let rest₂ := if rest₁.head? = some '.' then rest₁.tail.dropWhile Char.isDigit else rest₁
    if ip.isEmpty ∧ fp.isEmpty then none
    else
      match rest₂ with
      | [] => some (decToFin sign ip fp 0)
      | e :: rest₃ =>
          if e = 'e' ∨ e = 'E' then
            let esign : Int := if rest₃.head? = some '-' then -1 else 1
            let rest₄ := if rest₃.head? = some '-' ∨ rest₃.head? = some '+' then rest₃.tail
              else rest₃
            if ¬ rest₄.isEmpty ∧ rest₄.all Char.isDigit then
              some (decToFin sign ip fp (esign * Int.ofNat (digitsVal rest₄)))
            else none
          else none

/-- JS `parseFloat`: skip leading whitespace, optional sign, then the
longest prefix that is `Infinity` or a decimal numeral with optional
fraction and exponent (the exponent only when well formed); trailing
characters are ignored; no hexadecimal forms; `none` models NaN. -/
def parseFloatNum (s : String) : Option JNum :=
  let cs := s.data.dropWhile Char.isWhitespace
  let sign : Int := if cs.head? = some '-' then -1 else 1
  let cs₁ := if cs.head? = some '-' ∨ cs.head? = some '+' then cs.tail else cs
  if cs₁.take 8 = "Infinity".data then some (if sign = 1 then JNum.pinf else JNum.ninf)
  else
    let ip := cs₁.takeWhile Char.isDigit
    let rest₁ := cs₁.dropWhile Char.isDigit
    let fp := if rest₁.head? = some '.' then rest₁.tail.takeWhile Char.isDigit else []
    let rest₂ := if rest₁.head? = some '.' then rest₁.tail.dropWhile Char.isDigit else rest₁
    if ip.isEmpty ∧ fp.isEmpty then none
    else
      let expo : Int :=
        match rest₂ with
        | e :: rest₃ =>
            if e = 'e' ∨ e = 'E' then
              let esign : Int := if rest₃.head? = some '-' then -1 else 1
              let rest₄ := if rest₃.head? = some '-' ∨ rest₃.head? = some '+' then rest₃.tail
                else rest₃
              let ed := rest₄.takeWhile Char.isDigit
              if ed.isEmpty then 0 else esign * Int.ofNat (digitsVal ed)
            else 0
        | [] => 0
      some (decToFin sign ip fp expo)

/-- JS `ToNumber` of a value: numbers, booleans and null coerce
numerically; strings parse as above; arrays and plain objects coerce
through their `ToPrimitive` string (the comma join, the default object
tag). -/
def jsToNumber : JValue → Option JNum
  | .vnum n => some (.fin n 0)
  | .vstr s => jsStrToNum s
  | .vbool b => some (.fin (if b then 1 else 0) 0)
  | .vnull => some (.fin 0 0)
  | .varr xs => jsStrToNum (jToStringArr xs)
  | .vobj _ => jsStrToNum "[object Object]"

/-- The left operand of a condition comparison: the context value when
the variable name is bound in the context, otherwise the number the
name itself parses to. -/
inductive CondVal : Type where
  | ofCtx (v : JValue)
  | ofNum (n : JNum)
deriving DecidableEq

/-- `ToNumber` of a condition operand. -/
def condToNum : CondVal → Option JNum
  | .ofCtx v => jsToNumber v
  | .ofNum n => some n

/-- The integer `m * 10 ^ k` for `k ≥ 0`. -/
def scaleInt (m : Int) (k : Int) : Int :=
  m * (10 : Int) ^ k.toNat

/-- Exact order of two finite decimals, by scaling to the smaller
exponent. -/
def decLt (m₁ e₁ m₂ e₂ : Int) : Bool :=
  scaleInt m₁ (e₁ - min e₁ e₂) < scaleInt m₂ (e₂ - min e₁ e₂)

/-- Exact equality of two finite decimals. -/
def decNumEq (m₁ e₁ m₂ e₂ : Int) : Bool :=
  scaleInt m₁ (e₁ - min e₁ e₂) = scaleInt m₂ (e₂ - min e₁ e₂)

/-- JS `<` on non-NaN numbers. -/
def jnumLt : JNum → JNum → Bool
  | .fin m₁ e₁, .fin m₂ e₂ => decLt m₁ e₁ m₂ e₂
  | .fin _ _, .pinf => true
  | .fin _ _, .ninf => false
  | .pinf, _ => false
  | .ninf, .ninf => false
  | .ninf, _ => true

/-- JS `==` on non-NaN numbers. -/
def jnumEq : JNum → JNum → Bool
  | .fin m₁ e₁, .fin m₂ e₂ => decNumEq m₁ e₁ m₂ e₂
  | .pinf, .pinf => true
  | .ninf, .ninf => true
  | _, _ => false

/-- JS `val > threshold` with a numeric right operand: `ToNumber` the
left side and compare; false when it is NaN. -/
def jsGt (val : CondVal) (t : JNum) : Bool :=
  match condToNum val with
  | some n => jnumLt t n
  | none => false

/-- JS `val < threshold` with a numeric right operand. -/
def jsLt (val : CondVal) (t : JNum) : Bool :=
  match condToNum val with
  | some n => jnumLt n t
  | none => false

/-- JS loose equality `val == threshold` with a numeric right operand:
null is loosely equal only to null and undefined, never to a number;
every other value compares by numeric coercion, false on NaN. -/
def jsEqNum (val : CondVal) (t : JNum) : Bool :=
  match val with
  | .ofCtx .vnull => false
  | v =>
      match condToNum v with
      | some n => jnumEq n t
      | none => false

/-- ECMA-262 `Number::toString` base 10 for `m * 10 ^ p`, exact-decimal
model: positional notation with at most 21 integer digits and at most 6
leading fractional zeros, exponential notation beyond those bounds. -/
def jsNumRender (m p : Int) : String :=
  if m = 0 then "0"
  else
    let sign := if m < 0 then "-" else ""
    let ds := (toString m.natAbs).data
    let j := (ds.reverse.takeWhile (fun c => c = '0')).length
    let s := ds.take (ds.length - j)
    let k : Int := s.length
    let n : Int := k + (p + j)
    sign ++
      (if k ≤ n ∧ n ≤ 21 then
        String.mk s ++ String.mk (List.replicate (n - k).toNat '0')
      else if 0 < n ∧ n ≤ 21 then
        String.mk (s.take n.toNat) ++ "." ++ String.mk (s.drop n.toNat)
      else if -6 < n ∧ n ≤ 0 then
        "0." ++ String.mk (List.replicate (-n).toNat '0') ++ String.mk s
      else
        (if s.length = 1 then String.mk s
         else String.mk (s.take 1) ++ "." ++ String.mk (s.drop 1)) ++
          "e" ++ (if 0 ≤ n - 1 then "+" else "-") ++ toString (n - 1).natAbs)

/-- JS `String(x)` of a non-NaN number. -/
def jnumToString : JNum → String
  | .fin m p => jsNumRender m p
  | .pinf => "Infinity"
  | .ninf => "-Infinity"

/-- JS `String(val)` of a condition operand. -/
def condValStr : CondVal → String
  | .ofCtx v => jToString v
  | .ofNum n => jnumToString n

/-- JS property-key coercion: `o[k]` stringifies a non-string key, and
a missing configuration field reads as `undefined`. -/
def jsPropKey : Option JValue → String
  | some v => jToString v
  | none => "undefined"

/-- `x || default` on an optional configuration value, stringified. -/
def orDefaultStr (ov : Option JValue) (d : String) : String :=
  match ov with
  | some v => if jsFalsy v then d else jToString v
  | none => d

mutual
/-- A plain JSON printer standing in for `JSON.stringify(input, null, 2)`
(whitespace layout not reproduced; the result only feeds the AI prompt). -/
def jsonStr : JValue → String
  | .vstr s => "\"" ++ s ++ "\""
  | .vnum n => toString n
  | .vbool b => if b then "true" else "false"
  | .vnull => "null"
  | .varr xs => "[" ++ jsonStrArr xs ++ "]"
  | .vobj kvs => "\x7b" ++ jsonStrObj kvs ++ "\x7d"
termination_by structural x => x

/-- JSON printing of array elements. -/
def jsonStrArr : List JValue → String
  | [] => ""
  | [x] => jsonStr x
  | x :: y :: xs => jsonStr x ++ "," ++ jsonStrArr (y :: xs)
termination_by structural x => x

/-- JSON printing of object entries. -/
def jsonStrObj : List (String × JValue) → String
  | [] => ""
  | [(k, v)] => "\"" ++ k ++ "\":" ++ jsonStr v
  | (k, v) :: e :: kvs => "\"" ++ k ++ "\":" ++ jsonStr v ++ "," ++ jsonStrObj (e :: kvs)
termination_by structural x => x
end

/-- One invocation of the work closure `doWork` of `processNode`:
dispatch on node type and service, reading the resolved configuration,
mutating the captured `(output, logs)` environment, and throwing by
returning an error.  Invocation number `a` selects the oracle results
for this attempt.  The slack and AI branches stringify a non-string
`message` / `prompt` configuration value where the source would raise a
TypeError (`.substring` / `.includes` on a non-string); that error path
is not modelled. -/
def doWork (o : EffectOracle) (node : WorkflowNode) (finalConfig : JObj) (input : JObj)
    (a : Nat) (st : JObj × List String) : Except String Unit × (JObj × List String) :=
  let output := st.1
  let logs := st.2
  if node.type = NodeType.SCRIPT then
    let logs := logs ++ ["Executing custom script sandbox..."]
    match o.script a input with
    | .ok scriptResult =>
        let output :=
          match scriptResult with
          | .vobj kvs => objMerge output kvs
          | .varr xs => objMerge output (xs.enum.map fun p => (toString p.1, p.2))
          | .vnull => output
          | v => objMerge output [("result", v)]
        (.ok (), output, logs ++ ["Script execution completed."])
    | .error e => (.error ("Script Error: " ++ e), output, logs)
  else
    let svc := strToLower node.service
    if svc = "gmail" then
      if node.type = NodeType.ACTION then
        (.ok (), output, logs ++
          ["Connecting to SMTP server...", "Authenticating...",
           "Sending email to: " ++ orDefaultStr (objGet finalConfig "to") "recipient",
           "Subject: " ++ orDefaultStr (objGet finalConfig "subject") "(No Subject)"])
      else (.ok (), output, logs)
    else if svc = "slack" then
      let msgPart :=
        match objGet finalConfig "message" with
        | some m => String.mk ((jToString m).data.take 20)
        | none => "undefined"
      (.ok (), output, logs ++
        ["Resolving channel ID...",
         "Posting message to " ++ orDefaultStr (objGet finalConfig "channel") "channel" ++
           ": \"" ++ msgPart ++ "...\""])
    else if svc = "shopify" then
      let logs := logs ++ ["Fetching order data...", "Rate limit check: OK"]
      if o.shopifyFail a then (.error "Shopify API Rate Limit Exceeded", output, logs)
      else
        let output := objMerge output
          [("orderId", .vstr ("#SH-" ++ o.shopifyOrderId a)),
           ("totalValue", .vnum (o.shopifyTotal a))]
        (.ok (), output, logs ++ ["Order Value: $" ++ toString (o.shopifyTotal a)])
    else if svc = "gemini" ∨ svc = "ai" ∨ svc = "gpt" then
      let logs := logs ++ ["Building prompt context..."]
      let promptTemplate := orDefaultStr (objGet finalConfig "prompt") "Summarize the input data."
      let model := orDefaultStr (objGet finalConfig "model") "gemini-2.5-flash"
      let finalPrompt :=
        if ¬ input.isEmpty ∧ ¬ strIncludes promptTemplate "\x7b\x7b" then
          promptTemplate ++ "\n\n--- Input Data Context ---\n" ++ jsonStr (.vobj input)
        else promptTemplate
      let logs := logs ++ ["Sending request to " ++ model ++ "..."]
      match o.ai a finalPrompt model with
      | .ok aiResult =>
          (.ok (), objMerge output [("aiResult", .vstr aiResult)],
            logs ++ ["LLM Response received (" ++ toString aiResult.length ++ " chars)."])
      | .error e => (.error e, output, logs)
    else if svc = "system" then
      let logs :=
        if strIncludes (strToLower node.label) "wait" then
          logs ++ ["Timer started...", "Timer fired."]
        else logs
      if node.type = NodeType.CONDITION then
        let logs := logs ++ ["Evaluating condition logic..."]
        let varName := jsPropKey (objGet node.config "variable")
        let val : CondVal :=
          match objGet input varName with
          | some v => .ofCtx v
          | none => .ofNum ((parseFloatNum varName).getD (.fin 0 0))
        let threshold :=
          (parseFloatNum (jsPropKey (objGet finalConfig "threshold"))).getD (.fin 0 0)
        let operator :=
          match objGet finalConfig "operator" with
          | some v => if jsFalsy v then JValue.vstr ">" else v
          | none => JValue.vstr ">"
        let result :=
          if operator = JValue.vstr ">" then jsGt val threshold
          else if operator = JValue.vstr "<" then jsLt val threshold
          else if operator = JValue.vstr "==" then jsEqNum val threshold
          else if operator = JValue.vstr "!=" then !(jsEqNum val threshold)
          else if operator = JValue.vstr "contains" then
            strIncludes (condValStr val) (jnumToString threshold)
          else true
        let logs := logs ++
          ["Check: " ++ varName ++ " (" ++ condValStr val ++ ") " ++ jToString operator ++
            " " ++ jnumToString threshold ++ " = " ++ (if result then "true" else "false")]
        (.ok (), objMerge output [("conditionResult", .vbool result)], logs)
      else (.ok (), output, logs)
    else (.ok (), output, logs ++ ["Executing generic handler for " ++ node.service ++ "..."])

/-- The two log lines pushed before the retried work starts. -/
def activityOpenLogs (node : WorkflowNode) : List String :=
  ["Event: ActivityTaskScheduled (" ++ node.service ++ "." ++ nodeTypeStr node.type ++ ")",
   "Event: ActivityTaskStarted"]

/-- The `withRetry(doWork, node.label, logs)` application inside
`processNode`, with the retry trace exposed.  The environment starts as
the copied input (`let output = spread of input`) and the two opening
log lines. -/
def processNodeRetry (o : EffectOracle) (node : WorkflowNode) (input : JObj) :
    RetryResult (JObj × List String) Unit :=
  withRetry (doWork o node (resolveConfigMap node.config input) input)
    (fun st w => (st.1, st.2 ++ [w])) node.label (input, activityOpenLogs node)

/-- `processNode(node, input)`: resolve the configuration, run the work
function under the retry wrapper, and either return the accumulated
output and logs (closed by ActivityTaskCompleted) or rethrow the final
error.  On a throw the orchestrator discards these logs. -/
def processNode (o : EffectOracle) (node : WorkflowNode) (input : JObj) :
    Except String (JObj × List String) :=
  let t := processNodeRetry o node input
  match t.outcome with
  | .ok _ => .ok (t.state.1, t.state.2 ++ ["Event: ActivityTaskCompleted"])
  | .error e => .error e

theorem withRetry_three_errors {σ α : Type} (fn : Nat → σ → Except String α × σ)
    (pushLog : σ → String → σ) (op : String) (s₀ s₁ s₂ s₃ : σ) (e₁ e₂ e₃ : String)
    (h0 : fn 0 s₀ = (.error e₁, s₁))
    (h1 : fn 1 (pushLog s₁ (retryWarning op e₁ 1 1000)) = (.error e₂, s₂))
    (h2 : fn 2 (pushLog s₂ (retryWarning op e₂ 2 2000)) = (.error e₃, s₃)) :
    withRetry fn pushLog op s₀ =
      ⟨.error e₃, 3,
        [retryWarning op e₁ 1 1000, retryWarning op e₂ 2 2000, retryWarning op e₃ 3 4000],
        [1000, 2000], pushLog s₃ (retryWarning op e₃ 3 4000)⟩ := by
  simp [withRetry, withRetryLoop, MAX_RETRIES, BASE_DELAY, h0, h1, h2]

/-- C1 counterexample: a SCRIPT node whose user code always throws has
its script body executed three times by the retry wrapper, with three
retry warnings and two backoff waits, before the error becomes the
fatal step failure — not executed exactly once with no warning and no
wait. -/
theorem claim_C1_counterexample :
    (processNodeRetry
        ⟨fun _ _ => .error "boom", fun _ _ _ => .ok "", fun _ => false, fun _ => "", fun _ => 0⟩
        ⟨"n1", NodeType.SCRIPT, "script", "My Script", []⟩ []).calls = 3 ∧
    (processNodeRetry
        ⟨fun _ _ => .error "boom", fun _ _ _ => .ok "", fun _ => false, fun _ => "", fun _ => 0⟩
        ⟨"n1", NodeType.SCRIPT, "script", "My Script", []⟩ []).warnings.length = 3 ∧
    (processNodeRetry
        ⟨fun _ _ => .error "boom", fun _ _ _ => .ok "", fun _ => false, fun _ => "", fun _ => 0⟩
        ⟨"n1", NodeType.SCRIPT, "script", "My Script", []⟩ []).waits = [1000, 2000] ∧
    processNode
        ⟨fun _ _ => .error "boom", fun _ _ _ => .ok "", fun _ => false, fun _ => "", fun _ => 0⟩
        ⟨"n1", NodeType.SCRIPT, "script", "My Script", []⟩ [] =
      .error "Script Error: boom" :=
  ⟨by decide, by decide, by decide, rfl⟩

/-- C1 (amended): a SCRIPT node whose user code throws on every attempt
is retried like any other failing action: the script body runs
MAX_RETRIES = 3 times, each failure logs one retry warning, backoff
waits of 1000 and 2000 milliseconds occur between attempts, and the
last Script Error then propagates from processNode as the fatal step
failure. -/
theorem claim_C1 (o : EffectOracle) (node : WorkflowNode) (input : JObj)
    (hty : node.type = NodeType.SCRIPT)
    (e : Nat → String) (hfail : ∀ a, o.script a input = .error (e a)) :
    (processNodeRetry o node input).calls = MAX_RETRIES ∧
    (processNodeRetry o node input).warnings =
      [retryWarning node.label ("Script Error: " ++ e 0) 1 1000,
       retryWarning node.label ("Script Error: " ++ e 1) 2 2000,
       retryWarning node.label ("Script Error: " ++ e 2) 3 4000] ∧
    (processNodeRetry o node input).waits = [1000, 2000] ∧
    processNode o node input = .error ("Script Error: " ++ e 2) := by
  have hdw : ∀ (a : Nat) (st : JObj × List String),
      doWork o node (resolveConfigMap node.config input) input a st =
        (.error ("Script Error: " ++ e a),
          st.1, st.2 ++ ["Executing custom script sandbox..."]) := by
    intro a st
    simp [doWork, hty, hfail a]
  have hret := withRetry_three_errors
    (doWork o node (resolveConfigMap node.config input) input)
    (fun st w => (st.1, st.2 ++ [w])) node.label (input, activityOpenLogs node)
    _ _ _ _ _ _ (hdw 0 _) (hdw 1 _) (hdw 2 _)
  have hpr : processNodeRetry o node input =
      withRetry (doWork o node (resolveConfigMap node.config input) input)
        (fun st w => (st.1, st.2 ++ [w])) node.label (input, activityOpenLogs node) := rfl
  refine ⟨?_, ?_, ?_, ?_⟩
  · simp [hpr, hret, MAX_RETRIES]
  · simp [hpr, hret]
  · simp [hpr, hret]
  · simp [processNode, hpr, hret]

/-- C1 witness: the amended claim evaluated at a concrete
always-throwing script node. -/
theorem claim_C1_witness :
    (⟨"n1", NodeType.SCRIPT, "script", "Bad Script", []⟩ : WorkflowNode).type =
        NodeType.SCRIPT ∧
    (processNodeRetry
        ⟨fun _ _ => .error "oops", fun _ _ _ => .ok "", fun _ => false, fun _ => "", fun _ => 0⟩
        ⟨"n1", NodeType.SCRIPT, "script", "Bad Script", []⟩ [("x", .vnum 1)]).calls =
      MAX_RETRIES :=
  ⟨rfl,
    (claim_C1
      ⟨fun _ _ => .error "oops", fun _ _ _ => .ok "", fun _ => false, fun _ => "", fun _ => 0⟩
      ⟨"n1", NodeType.SCRIPT, "script", "Bad Script", []⟩ [("x", .vnum 1)] rfl
      (fun _ => "oops") (fun _ => rfl)).1⟩

/-!  ## Run Orchestrator (`executeWorkflow` in the source)

The run and step records keep the fields the engine computes from data;
wall-clock fields (timestamps, durations) are not modelled.  Step ids
`step-(Date.now())` are modelled by a step counter; the run id by a
fixed string.  The observer callback is modelled by accumulating the
list of run snapshots passed to it, in call order.  The `while` loop
has no bound in the source (a cyclic graph loops forever), so the
embedding takes an explicit `fuel` for the number of iterations; a
terminating run is insensitive to any large enough fuel. -/

/-- Status of a run step. -/
inductive StepStatus : Type where
  | pending
  | success
  | failed
deriving DecidableEq

/-- Status of a run. -/
inductive RunStatus : Type where
  | running
  | success
  | failed
deriving DecidableEq

/-- One execution record of a node visit. -/
structure RunStep : Type where
  id : String
  nodeId : String
  nodeLabel : String
  status : StepStatus
  input : JObj
  output : JObj
  logs : List String

/-- The run record streamed to the observer. -/
structure RunLog : Type where
  id : String
  workflowId : String
  workflowName : String
  status : RunStatus
  steps : List RunStep

/-- The id given to the step appended at loop iteration `i`. -/
def stepIdString (i : Nat) : String :=
  "step-" ++ toString i

/-- `steps.map(s => s.id === stepId ? replacement : s)`: replace a step
in place by id. -/
def replaceStep (steps : List RunStep) (stepId : String) (s' : RunStep) : List RunStep :=
  steps.map fun s => if s.id = stepId then s' else s

/-- The branching logic at the bottom of the orchestrator loop: for a
CONDITION node, follow the edge labelled like the condition result,
falling back to the first outgoing edge; otherwise follow the first
outgoing edge; none ends the traversal. -/
def findNextNode (nodes : List WorkflowNode) (edges : List WorkflowEdge)
    (cur : WorkflowNode) (stepOutput : JObj) : Option WorkflowNode :=
  if cur.type = NodeType.CONDITION then
    let result := objGet stepOutput "conditionResult"
    let targetLabel := if result = some (.vbool true) then "true" else "false"
    let nextEdge :=
      match edges.find? (fun e => e.source = cur.id ∧ e.label.map strToLower = some targetLabel) with
      | some e => some e
      | none => edges.find? (fun e => e.source = cur.id)
    match nextEdge with
    | some e => nodes.find? (fun n => n.id = e.target)
    | none => none
  else
    match edges.find? (fun e => e.source = cur.id) with
    | some e => nodes.find? (fun n => n.id = e.target)
    | none => none

/-- The body of the orchestrator `while` loop.  Arguments after `fuel`:
the current node, the step counter, the accumulated context
(`stepInput`), the run so far, and the observer notifications so far.
Returns the final run and the full notification sequence. -/
def executeWorkflowLoop (o : Nat → EffectOracle) (nodes : List WorkflowNode)
    (edges : List WorkflowEdge) :
    Nat → Option WorkflowNode → Nat → JObj → RunLog → List RunLog → RunLog × List RunLog
  | 0, _, _, _, run, notifs => (run, notifs)
  | _ + 1, none, _, _, run, notifs =>
      let done := { run with status := RunStatus.success }
      (done, notifs ++ [done])
  | fuel + 1, some cur, i, stepInput, run, notifs =>
      let stepId := stepIdString i
      let pendingStep : RunStep :=
        ⟨stepId, cur.id, cur.label, StepStatus.pending, stepInput, [], []⟩
      let run₁ := { run with steps := run.steps ++ [pendingStep] }
      let notifs₁ := notifs ++ [run₁]
      match processNode (o i) cur stepInput with
      | .error e =>
          let failedStep := { pendingStep with
            status := StepStatus.failed,
            logs := ["Error: Execution failed", "Details: " ++ e] }
          let run₂ := { run₁ with
            status := RunStatus.failed,
            steps := replaceStep run₁.steps stepId failedStep }
          (run₂, notifs₁ ++ [run₂])
      | .ok (output, logs) =>
          let completedStep := { pendingStep with
            status := StepStatus.success, output := output, logs := logs }
          let run₂ := { run₁ with steps := replaceStep run₁.steps stepId completedStep }
          let stepInput' := objMerge stepInput output
          executeWorkflowLoop o nodes edges fuel
            (findNextNode nodes edges cur output) (i + 1) stepInput' run₂ (notifs₁ ++ [run₂])

/-- `executeWorkflow`: build the initial running record, notify, pick
the start node (first node without incoming edges, else the first node
of the list), and run the loop. -/
def executeWorkflow (o : Nat → EffectOracle) (workflowId workflowName : String)
    (nodes : List WorkflowNode) (edges : List WorkflowEdge) (initialInput : JObj)
    (fuel : Nat) : RunLog × List RunLog :=
  let run₀ : RunLog := ⟨"run-0", workflowId, workflowName, RunStatus.running, []⟩
  let incoming := edges.map (fun e => e.target)
  let start :=
    match nodes.find? (fun n => ¬ incoming.contains n.id) with
    | some n => some n
    | none => nodes.head?
  executeWorkflowLoop o nodes edges fuel start 0 initialInput run₀ [run₀]

theorem replaceStep_fresh (steps : List RunStep) (stepId : String) (s' : RunStep)
    (h : ∀ s ∈ steps, s.id ≠ stepId) : replaceStep steps stepId s' = steps := by
  unfold replaceStep
  induction steps with
  | nil => rfl
  | cons s steps ih =>
      simp only [List.map_cons, if_neg (h s (by simp))]
      rw [ih (fun t ht => h t (by simp [ht]))]

/-- C3: when the dispatcher fails on the current node after its retries
are exhausted, the orchestrator replaces the pending step in place with
a failed step (same id, error text in its logs), sets the run status to
failed, notifies the observer with exactly that snapshot, and returns
it immediately: the returned run carries exactly one step beyond the
previous ones, so no later node is visited and nothing more is ever
appended to this run. -/
theorem claim_C3 (o : Nat → EffectOracle) (nodes : List WorkflowNode)
    (edges : List WorkflowEdge) (fuel i : Nat) (cur : WorkflowNode) (stepInput : JObj)
    (run : RunLog) (notifs : List RunLog) (e : String)
    (h : processNode (o i) cur stepInput = .error e)
    (hfresh : ∀ s ∈ run.steps, s.id ≠ stepIdString i) :
    executeWorkflowLoop o nodes edges (fuel + 1) (some cur) i stepInput run notifs =
      ({ run with
          status := RunStatus.failed,
          steps := run.steps ++
            [⟨stepIdString i, cur.id, cur.label, StepStatus.failed, stepInput, [],
              ["Error: Execution failed", "Details: " ++ e]⟩] },
        notifs ++
          [{ run with
              steps := run.steps ++
                [⟨stepIdString i, cur.id, cur.label, StepStatus.pending, stepInput, [], []⟩] },
           { run with
              status := RunStatus.failed,
              steps := run.steps ++
                [⟨stepIdString i, cur.id, cur.label, StepStatus.failed, stepInput, [],
                  ["Error: Execution failed", "Details: " ++ e]⟩] }]) := by
  simp only [executeWorkflowLoop, h]
  rw [show replaceStep
        (run.steps ++ [⟨stepIdString i, cur.id, cur.label, StepStatus.pending, stepInput, [], []⟩])
        (stepIdString i)
        ⟨stepIdString i, cur.id, cur.label, StepStatus.failed, stepInput, [],
          ["Error: Execution failed", "Details: " ++ e]⟩ =
      run.steps ++
        [⟨stepIdString i, cur.id, cur.label, StepStatus.failed, stepInput, [],
          ["Error: Execution failed", "Details: " ++ e]⟩] from by
    unfold replaceStep
    rw [List.map_append]
    rw [show List.map _ run.steps = run.steps from by
      rw [← replaceStep]
      exact replaceStep_fresh run.steps (stepIdString i) _ hfresh]
    simp]
  simp

/-- C3 witness: the failure path evaluated at a concrete one-node run
whose script always throws. -/
theorem claim_C3_witness :
    executeWorkflowLoop
        (fun _ => ⟨fun _ _ => .error "boom", fun _ _ _ => .ok "", fun _ => false,
          fun _ => "", fun _ => 0⟩)
        [] [] 3 (some ⟨"n1", NodeType.SCRIPT, "script", "Bad", []⟩) 0 []
        ⟨"run-0", "wf", "W", RunStatus.running, []⟩ [] =
      (⟨"run-0", "wf", "W", RunStatus.failed,
          [⟨"step-0", "n1", "Bad", StepStatus.failed, [], [],
            ["Error: Execution failed", "Details: Script Error: boom"]⟩]⟩,
        [⟨"run-0", "wf", "W", RunStatus.running,
            [⟨"step-0", "n1", "Bad", StepStatus.pending, [], [], []⟩]⟩,
         ⟨"run-0", "wf", "W", RunStatus.failed,
            [⟨"step-0", "n1", "Bad", StepStatus.failed, [], [],
              ["Error: Execution failed", "Details: Script Error: boom"]⟩]⟩]) :=
  claim_C3
    (fun _ => ⟨fun _ _ => .error "boom", fun _ _ _ => .ok "", fun _ => false,
      fun _ => "", fun _ => 0⟩)
    [] [] 2 0 ⟨"n1", NodeType.SCRIPT, "script", "Bad", []⟩ []
    ⟨"run-0", "wf", "W", RunStatus.running, []⟩ [] "Script Error: boom" rfl
    (by intro s hs; simp at hs)

/-- C4: branch selection after a CONDITION node.  The desired label is
true or false according to output.conditionResult being strictly the
boolean true; a labelled matching edge is followed; without one the
first outgoing edge is taken regardless of label; with no outgoing edge
at all the traversal ends and the run finishes with status success.
For the concrete router graph (totalValue greater than 100, edges
true to X and false to Y) the run with totalValue 150 visits X and the
run with totalValue 50 visits Y. -/
theorem claim_C4 :
    (∀ (nodes : List WorkflowNode) (edges : List WorkflowEdge) (cur : WorkflowNode)
        (out : JObj) (e : WorkflowEdge),
        cur.type = NodeType.CONDITION →
        edges.find? (fun e => e.source = cur.id ∧ e.label.map strToLower =
          some (if objGet out "conditionResult" = some (.vbool true) then "true" else "false")) =
            some e →
        findNextNode nodes edges cur out = nodes.find? (fun n => n.id = e.target)) ∧
    (∀ (nodes : List WorkflowNode) (edges : List WorkflowEdge) (cur : WorkflowNode)
        (out : JObj) (e : WorkflowEdge),
        cur.type = NodeType.CONDITION →
        edges.find? (fun e => e.source = cur.id ∧ e.label.map strToLower =
          some (if objGet out "conditionResult" = some (.vbool true) then "true" else "false")) =
            none →
        edges.find? (fun e => e.source = cur.id) = some e →
        findNextNode nodes edges cur out = nodes.find? (fun n => n.id = e.target)) ∧
    (∀ (nodes : List WorkflowNode) (edges : List WorkflowEdge) (cur : WorkflowNode)
        (out : JObj),
        cur.type = NodeType.CONDITION →
        edges.find? (fun e => e.source = cur.id) = none →
        findNextNode nodes edges cur out = none) ∧
    (∀ (o : Nat → EffectOracle) (nodes : List WorkflowNode) (edges : List WorkflowEdge)
        (fuel i : Nat) (ctx : JObj) (run : RunLog) (notifs : List RunLog),
        executeWorkflowLoop o nodes edges (fuel + 1) none i ctx run notifs =
          ({ run with status := RunStatus.success },
            notifs ++ [{ run with status := RunStatus.success }])) ∧
    ((executeWorkflow
        (fun _ => ⟨fun _ _ => .ok .vnull, fun _ _ _ => .ok "", fun _ => false,
          fun _ => "", fun _ => 0⟩) "wf" "Router"
        [⟨"t", NodeType.TRIGGER, "typeform", "Trigger", []⟩,
         ⟨"c", NodeType.CONDITION, "system", "Check",
           [("variable", .vstr "totalValue"), ("operator", .vstr ">"),
            ("threshold", .vnum 100)]⟩,
         ⟨"x", NodeType.ACTION, "slack", "X", []⟩,
         ⟨"y", NodeType.ACTION, "slack", "Y", []⟩]
        [⟨"e1", "t", "c", none⟩, ⟨"e2", "c", "x", some "true"⟩, ⟨"e3", "c", "y", some "false"⟩]
        [("totalValue", .vnum 150)] 10).1.steps.map (fun s => s.nodeId) = ["t", "c", "x"] ∧
      (executeWorkflow
        (fun _ => ⟨fun _ _ => .ok .vnull, fun _ _ _ => .ok "", fun _ => false,
          fun _ => "", fun _ => 0⟩) "wf" "Router"
        [⟨"t", NodeType.TRIGGER, "typeform", "Trigger", []⟩,
         ⟨"c", NodeType.CONDITION, "system", "Check",
           [("variable", .vstr "totalValue"), ("operator", .vstr ">"),
            ("threshold", .vnum 100)]⟩,
         ⟨"x", NodeType.ACTION, "slack", "X", []⟩,
         ⟨"y", NodeType.ACTION, "slack", "Y", []⟩]
        [⟨"e1", "t", "c", none⟩, ⟨"e2", "c", "x", some "true"⟩, ⟨"e3", "c", "y", some "false"⟩]
        [("totalValue", .vnum 150)] 10).1.status = RunStatus.success ∧
      (executeWorkflow
        (fun _ => ⟨fun _ _ => .ok .vnull, fun _ _ _ => .ok "", fun _ => false,
          fun _ => "", fun _ => 0⟩) "wf" "Router"
        [⟨"t", NodeType.TRIGGER, "typeform", "Trigger", []⟩,
         ⟨"c", NodeType.CONDITION, "system", "Check",
           [("variable", .vstr "totalValue"), ("operator", .vstr ">"),
            ("threshold", .vnum 100)]⟩,
         ⟨"x", NodeType.ACTION, "slack", "X", []⟩,
         ⟨"y", NodeType.ACTION, "slack", "Y", []⟩]
        [⟨"e1", "t", "c", none⟩, ⟨"e2", "c", "x", some "true"⟩, ⟨"e3", "c", "y", some "false"⟩]
        [("totalValue", .vnum 50)] 10).1.steps.map (fun s => s.nodeId) = ["t", "c", "y"]) := by
  refine ⟨?_, ?_, ?_, ?_, by decide, by decide, by decide⟩
  · intro nodes edges cur out e hty hfind
    unfold findNextNode
    rw [if_pos hty]
    dsimp only
    rw [hfind]
  · intro nodes edges cur out e hty hnol hfind
    unfold findNextNode
    rw [if_pos hty]
    dsimp only
    rw [hnol, hfind]
  · intro nodes edges cur out hty hno
    unfold findNextNode
    rw [if_pos hty]
    dsimp only
    have hnol : edges.find? (fun e => e.source = cur.id ∧ e.label.map strToLower =
        some (if objGet out "conditionResult" = some (.vbool true) then "true" else "false")) =
        none := by
      rw [List.find?_eq_none] at hno ⊢
      intro x hx
      simp only [decide_eq_true_eq] at hno ⊢
      intro hcon
      exact hno x hx (by simpa using hcon.1)
    rw [hnol, hno]
  · intro o nodes edges fuel i ctx run notifs
    simp [executeWorkflowLoop]

/-- C4 witness: the labelled-edge clause at a concrete condition node
whose result is true. -/
theorem claim_C4_witness :
    findNextNode
        [⟨"x", NodeType.ACTION, "slack", "X", []⟩]
        [⟨"e2", "c", "x", some "true"⟩]
        ⟨"c", NodeType.CONDITION, "system", "Check", []⟩
        [("conditionResult", .vbool true)] =
      List.find? (fun n => n.id = "x") [⟨"x", NodeType.ACTION, "slack", "X", []⟩] :=
  claim_C4.1 [⟨"x", NodeType.ACTION, "slack", "X", []⟩] [⟨"e2", "c", "x", some "true"⟩]
    ⟨"c", NodeType.CONDITION, "system", "Check", []⟩ [("conditionResult", .vbool true)]
    ⟨"e2", "c", "x", some "true"⟩ rfl (by decide)

theorem withRetry_first_ok {σ α : Type} (fn : Nat → σ → Except String α × σ)
    (pushLog : σ → String → σ) (op : String) (s₀ s₁ : σ) (a : α)
    (h0 : fn 0 s₀ = (.ok a, s₁)) :
    withRetry fn pushLog op s₀ = ⟨.ok a, 1, [], [], s₁⟩ := by
  simp [withRetry, withRetryLoop, MAX_RETRIES, h0]

/-- The value the condition compares: the configured variable name
looked up in the context, with `parseFloat` of the name itself (0 when
not numeric) as the fallback for an absent key. -/
def condValue (input : JObj) (varName : String) : CondVal :=
  match objGet input varName with
  | some v => .ofCtx v
  | none => .ofNum ((parseFloatNum varName).getD (.fin 0 0))

/-- The numeric threshold read from the resolved configuration:
`parseFloat` of the stringified field, 0 when missing or NaN. -/
def condThreshold (finalConfig : JObj) : JNum :=
  (parseFloatNum (jsPropKey (objGet finalConfig "threshold"))).getD (.fin 0 0)

theorem doWork_condition (o : EffectOracle) (node : WorkflowNode) (input : JObj)
    (hs : strToLower node.service = "system") (hty : node.type = NodeType.CONDITION)
    (opv : JValue) (r : Bool)
    (hop : objGet (resolveConfigMap node.config input) "operator" = some opv)
    (hfal : jsFalsy opv = false)
    (hr : (if opv = JValue.vstr ">" then
          jsGt (condValue input (jsPropKey (objGet node.config "variable")))
            (condThreshold (resolveConfigMap node.config input))
        else if opv = JValue.vstr "<" then
          jsLt (condValue input (jsPropKey (objGet node.config "variable")))
            (condThreshold (resolveConfigMap node.config input))
        else if opv = JValue.vstr "==" then
          jsEqNum (condValue input (jsPropKey (objGet node.config "variable")))
            (condThreshold (resolveConfigMap node.config input))
        else if opv = JValue.vstr "!=" then
          !(jsEqNum (condValue input (jsPropKey (objGet node.config "variable")))
            (condThreshold (resolveConfigMap node.config input)))
        else if opv = JValue.vstr "contains" then
          strIncludes (condValStr (condValue input (jsPropKey (objGet node.config "variable"))))
            (jnumToString (condThreshold (resolveConfigMap node.config input)))
        else true) = r) :
    doWork o node (resolveConfigMap node.config input) input 0
      (input, activityOpenLogs node) =
      (.ok (), objMerge input [("conditionResult", .vbool r)],
        (doWork o node (resolveConfigMap node.config input) input 0
          (input, activityOpenLogs node)).2.2) := by
  conv_lhs => unfold doWork
  conv_rhs => unfold doWork
  simp only [hty, hs, hop, hfal, condValue, condThreshold] at hr ⊢
  simp only [reduceCtorEq, if_false, reduceIte]
  rw [if_neg (by decide : ¬ ("system" : String) = "gmail")]
  rw [if_neg (by decide : ¬ ("system" : String) = "slack")]
  rw [if_neg (by decide : ¬ ("system" : String) = "shopify")]
  rw [if_neg (by decide :
        ¬ (("system" : String) = "gemini" ∨ ("system" : String) = "ai" ∨
          ("system" : String) = "gpt"))]
  simp only [hr]

theorem processNode_condition (o : EffectOracle) (node : WorkflowNode) (input : JObj)
    (hs : strToLower node.service = "system") (hty : node.type = NodeType.CONDITION)
    (opv : JValue) (r : Bool)
    (hop : objGet (resolveConfigMap node.config input) "operator" = some opv)
    (hfal : jsFalsy opv = false)
    (hr : (if opv = JValue.vstr ">" then
          jsGt (condValue input (jsPropKey (objGet node.config "variable")))
            (condThreshold (resolveConfigMap node.config input))
        else if opv = JValue.vstr "<" then
          jsLt (condValue input (jsPropKey (objGet node.config "variable")))
            (condThreshold (resolveConfigMap node.config input))
        else if opv = JValue.vstr "==" then
          jsEqNum (condValue input (jsPropKey (objGet node.config "variable")))
            (condThreshold (resolveConfigMap node.config input))
        else if opv = JValue.vstr "!=" then
          !(jsEqNum (condValue input (jsPropKey (objGet node.config "variable")))
            (condThreshold (resolveConfigMap node.config input)))
        else if opv = JValue.vstr "contains" then
          strIncludes (condValStr (condValue input (jsPropKey (objGet node.config "variable"))))
            (jnumToString (condThreshold (resolveConfigMap node.config input)))
        else true) = r) :
    ∃ logs, processNode o node input =
      .ok (objMerge input [("conditionResult", .vbool r)], logs) := by
  have hD := doWork_condition o node input hs hty opv r hop hfal hr
  have h0 : withRetry (doWork o node (resolveConfigMap node.config input) input)
      (fun st w => (st.1, st.2 ++ [w])) node.label (input, activityOpenLogs node) =
      ⟨.ok (), 1, [], [],
        (objMerge input [("conditionResult", .vbool r)],
          (doWork o node (resolveConfigMap node.config input) input 0
            (input, activityOpenLogs node)).2.2)⟩ :=
    withRetry_first_ok _ _ node.label _ _ () hD
  refine ⟨(doWork o node (resolveConfigMap node.config input) input 0
      (input, activityOpenLogs node)).2.2 ++ ["Event: ActivityTaskCompleted"], ?_⟩
  have hp : processNodeRetry o node input =
      withRetry (doWork o node (resolveConfigMap node.config input) input)
        (fun st w => (st.1, st.2 ++ [w])) node.label (input, activityOpenLogs node) := rfl
  simp [processNode, hp, h0]

theorem objGet_objSet_self : ∀ (o : JObj) (k : String) (v : JValue),
    objGet (objSet o k v) k = some v
  | [], k, v => by simp [objSet, objGet]
  | (k₁, w) :: rest, k, v => by
      by_cases h : k₁ = k
      · subst h
        simp [objSet, objGet]
      · simp only [objSet, if_neg h, objGet]
        exact objGet_objSet_self rest k v

theorem objGet_objSet_isSome : ∀ (o : JObj) (k key : String) (v : JValue),
    (objGet o k).isSome = true → (objGet (objSet o key v) k).isSome = true := by
  intro o k key v h
  by_cases hk : key = k
  · subst hk
    rw [objGet_objSet_self]
    rfl
  · induction o with
    | nil => simp [objGet] at h
    | cons p rest ih =>
        obtain ⟨k₁, w⟩ := p
        by_cases h₁ : k₁ = key
        · subst h₁
          simp only [objSet, if_pos rfl]
          simp only [objGet] at h ⊢
          by_cases h₂ : k₁ = k
          · simp [h₂]
          · rw [if_neg h₂] at h ⊢
            exact h
        · simp only [objSet, if_neg h₁]
          simp only [objGet] at h ⊢
          by_cases h₂ : k₁ = k
          · simp [h₂]
          · rw [if_neg h₂] at h ⊢
            exact ih h

theorem objGet_objMerge_single (inp : JObj) (k : String) (v : JValue) :
    objGet (objMerge inp [(k, v)]) k = some v := by
  simp only [objMerge, List.foldl]
  exact objGet_objSet_self inp k v

/-- C5: for a CONDITION node dispatched through the system service, the
evaluation looks up the configured variable name in the context and,
when the name is absent, falls back to `parseFloat` of the name itself
as a literal (0 when not numeric); it compares that value against the
resolved threshold with the resolved operator drawn from the five
comparison operators under the JS coercion rules (null is never
loosely equal to a number but coerces to 0 relationally, booleans and
numeric strings coerce numerically, arrays and objects coerce through
their join string, NaN comparisons are false), the step succeeds, and
the boolean outcome is stored under output.conditionResult in the
otherwise copied input context. -/
theorem claim_C5 (o : EffectOracle) (node : WorkflowNode) (input : JObj) (varName : String)
    (hs : strToLower node.service = "system") (hty : node.type = NodeType.CONDITION)
    (hvar : objGet node.config "variable" = some (.vstr varName)) :
    (objGet (resolveConfigMap node.config input) "operator" = some (.vstr ">") →
      ∃ logs, processNode o node input = .ok (objMerge input
        [("conditionResult", .vbool (jsGt (condValue input varName)
          (condThreshold (resolveConfigMap node.config input))))], logs)) ∧
    (objGet (resolveConfigMap node.config input) "operator" = some (.vstr "<") →
      ∃ logs, processNode o node input = .ok (objMerge input
        [("conditionResult", .vbool (jsLt (condValue input varName)
          (condThreshold (resolveConfigMap node.config input))))], logs)) ∧
    (objGet (resolveConfigMap node.config input) "operator" = some (.vstr "==") →
      ∃ logs, processNode o node input = .ok (objMerge input
        [("conditionResult", .vbool (jsEqNum (condValue input varName)
          (condThreshold (resolveConfigMap node.config input))))], logs)) ∧
    (objGet (resolveConfigMap node.config input) "operator" = some (.vstr "!=") →
      ∃ logs, processNode o node input = .ok (objMerge input
        [("conditionResult", .vbool (!(jsEqNum (condValue input varName)
          (condThreshold (resolveConfigMap node.config input)))))], logs)) ∧
    (objGet (resolveConfigMap node.config input) "operator" = some (.vstr "contains") →
      ∃ logs, processNode o node input = .ok (objMerge input
        [("conditionResult", .vbool (strIncludes (condValStr (condValue input varName))
          (jnumToString (condThreshold (resolveConfigMap node.config input)))))], logs)) ∧
    (∀ (inp : JObj) (b : Bool),
      objGet (objMerge inp [("conditionResult", .vbool b)]) "conditionResult" =
        some (.vbool b)) := by
  have hvn : jsPropKey (objGet node.config "variable") = varName := by
    rw [hvar]
    simp [jsPropKey, jToString]
  refine ⟨?_, ?_, ?_, ?_, ?_, fun inp b => objGet_objMerge_single inp _ _⟩
  · intro hop
    exact processNode_condition o node input hs hty (.vstr ">") _ hop (by decide)
      (by rw [hvn]; simp)
  · intro hop
    exact processNode_condition o node input hs hty (.vstr "<") _ hop (by decide)
      (by rw [hvn]; simp)
  · intro hop
    exact processNode_condition o node input hs hty (.vstr "==") _ hop (by decide)
      (by rw [hvn]; simp)
  · intro hop
    exact processNode_condition o node input hs hty (.vstr "!=") _ hop (by decide)
      (by rw [hvn]; simp)
  · intro hop
    exact processNode_condition o node input hs hty (.vstr "contains") _ hop (by decide)
      (by rw [hvn]; simp)

/-- C5 witness: the greater-than clause at the concrete high-value
router condition with totalValue 150 evaluates to a true
conditionResult. -/
theorem claim_C5_witness :
    ∃ logs,
      processNode
        ⟨fun _ _ => .ok .vnull, fun _ _ _ => .ok "", fun _ => false, fun _ => "", fun _ => 0⟩
        ⟨"c", NodeType.CONDITION, "system", "Check",
          [("variable", .vstr "totalValue"), ("operator", .vstr ">"), ("threshold", .vnum 100)]⟩
        [("totalValue", .vnum 150)] =
      .ok (objMerge [("totalValue", .vnum 150)]
        [("conditionResult", .vbool true)], logs) := by
  have h := (claim_C5
    ⟨fun _ _ => .ok .vnull, fun _ _ _ => .ok "", fun _ => false, fun _ => "", fun _ => 0⟩
    ⟨"c", NodeType.CONDITION, "system", "Check",
      [("variable", .vstr "totalValue"), ("operator", .vstr ">"), ("threshold", .vnum 100)]⟩
    [("totalValue", .vnum 150)] "totalValue" rfl rfl rfl).1 (by decide)
  rw [show jsGt (condValue [("totalValue", .vnum 150)] "totalValue")
      (condThreshold (resolveConfigMap
        [("variable", .vstr "totalValue"), ("operator", .vstr ">"), ("threshold", .vnum 100)]
        [("totalValue", .vnum 150)])) = true from by decide] at h
  exact h

theorem withRetryLoop_state_inv {σ α : Type} (P : σ → Prop)
    (fn : Nat → σ → Except String α × σ) (pushLog : σ → String → σ) (op : String)
    (hfn : ∀ a s, P s → P (fn a s).2) (hpush : ∀ s w, P s → P (pushLog s w)) :
    ∀ (fuel attempt calls : Nat) (warnings : List String) (waits : List Nat) (s : σ),
      P s → P (withRetryLoop fn pushLog op fuel attempt calls warnings waits s).state := by
  intro fuel
  induction fuel with
  | zero =>
      intro attempt calls warnings waits s hP
      exact hP
  | succ fuel ih =>
      intro attempt calls warnings waits s hP
      simp only [withRetryLoop]
      split
      · rcases hfa : fn calls s with ⟨out, s'⟩
        have hPs' : P s' := by
          have h := hfn calls s hP
          rw [hfa] at h
          exact h
        rcases out with msg | a
        · simp only
          split
          · exact hpush s' _ hPs'
          · exact ih _ _ _ _ _ (hpush s' _ hPs')
        · exact hPs'
      · exact hP

theorem doWork_output_shape (o : EffectOracle) (node : WorkflowNode) (finalConfig input : JObj)
    (a : Nat) (st : JObj × List String) :
    (doWork o node finalConfig input a st).2.1 = st.1 ∨
    ∃ X, (doWork o node finalConfig input a st).2.1 = objMerge st.1 X := by
  unfold doWork
  dsimp only
  by_cases h1 : node.type = NodeType.SCRIPT
  · simp only [if_pos h1]
    rcases hsc : o.script a input with e | r
    · exact Or.inl (by simp)
    · rcases r with s | n | b | _ | xs | kvs
      · exact Or.inr ⟨_, rfl⟩
      · exact Or.inr ⟨_, rfl⟩
      · exact Or.inr ⟨_, rfl⟩
      · exact Or.inl (by simp)
      · exact Or.inr ⟨_, rfl⟩
      · exact Or.inr ⟨_, rfl⟩
  · simp only [if_neg h1]
    by_cases h2 : strToLower node.service = "gmail"
    · simp only [if_pos h2]
      by_cases h3 : node.type = NodeType.ACTION
      · simp only [if_pos h3]
        exact Or.inl (by simp)
      · simp only [if_neg h3]
        exact Or.inl (by simp)
    · simp only [if_neg h2]
      by_cases h3 : strToLower node.service = "slack"
      · simp only [if_pos h3]
        exact Or.inl (by simp)
      · simp only [if_neg h3]
        by_cases h4 : strToLower node.service = "shopify"
        · simp only [if_pos h4]
          by_cases h5 : o.shopifyFail a
          · simp only [if_pos h5]
            exact Or.inl (by simp)
          · simp only [if_neg h5]
            exact Or.inr ⟨_, rfl⟩
        · simp only [if_neg h4]
          by_cases h5 : strToLower node.service = "gemini" ∨ strToLower node.service = "ai" ∨
              strToLower node.service = "gpt"
          · simp only [if_pos h5]
            rcases hai : o.ai a ((if
                ¬List.isEmpty input = true ∧
                  ¬strIncludes (orDefaultStr (objGet finalConfig "prompt")
                    "Summarize the input data.") "\x7b\x7b" = true then
                orDefaultStr (objGet finalConfig "prompt") "Summarize the input data." ++
                  "\n\n--- Input Data Context ---\n" ++ jsonStr (.vobj input)
              else orDefaultStr (objGet finalConfig "prompt") "Summarize the input data."))
              (orDefaultStr (objGet finalConfig "model") "gemini-2.5-flash") with e | res
            · exact Or.inl (by simp)
            · exact Or.inr ⟨_, rfl⟩
          · simp only [if_neg h5]
            by_cases h6 : strToLower node.service = "system"
            · simp only [if_pos h6]
              by_cases h7 : node.type = NodeType.CONDITION
              · simp only [if_pos h7]
                exact Or.inr ⟨_, rfl⟩
              · simp only [if_neg h7]
                exact Or.inl (by simp)
            · simp only [if_neg h6]
              exact Or.inl (by simp)

theorem objGet_objMerge_isSome (a b : JObj) (k : String)
    (h : (objGet a k).isSome = true) : (objGet (objMerge a b) k).isSome = true := by
  induction b generalizing a with
  | nil => exact h
  | cons p rest ih =>
      simp only [objMerge, List.foldl] at *
      exact ih (objSet a p.1 p.2) (objGet_objSet_isSome a k p.1 p.2 h)

theorem processNode_keys_preserved (o : EffectOracle) (node : WorkflowNode)
    (input output : JObj) (logs : List String)
    (h : processNode o node input = .ok (output, logs)) :
    ∀ k, (objGet input k).isSome = true → (objGet output k).isSome = true := by
  intro k hk
  have hstate : (objGet (processNodeRetry o node input).state.1 k).isSome = true := by
    have hfn : ∀ (a : Nat) (s : JObj × List String), (objGet s.1 k).isSome = true →
        (objGet ((doWork o node (resolveConfigMap node.config input) input a s).2).1 k).isSome =
          true := by
      intro a s hP
      rcases doWork_output_shape o node (resolveConfigMap node.config input) input a s with
        hsh | ⟨X, hsh⟩
      · rw [hsh]
        exact hP
      · rw [hsh]
        exact objGet_objMerge_isSome s.1 X k hP
    exact withRetryLoop_state_inv (fun st => (objGet st.1 k).isSome = true)
      (doWork o node (resolveConfigMap node.config input) input)
      (fun st w => (st.1, st.2 ++ [w])) node.label hfn (fun s w hP => hP)
      MAX_RETRIES 0 0 [] [] (input, activityOpenLogs node) hk
  simp only [processNode] at h
  rcases ht : (processNodeRetry o node input).outcome with e | u
  · rw [ht] at h
    exact Except.noConfusion h
  · rw [ht] at h
    injection h with h'
    have h1 : (processNodeRetry o node input).state.1 = output := congrArg Prod.fst h'
    rw [← h1]
    exact hstate

/-- C10 counterexample: a SCRIPT node over input a = 1 whose script
returns a = 2 produces an output that does not contain the key-value
pair (a, 1) of its input: the dispatcher initialization copies the
input, but later merges overwrite values, so only keys survive. -/
theorem claim_C10_counterexample :
    processNode
        ⟨fun _ _ => .ok (.vobj [("a", .vnum 2)]), fun _ _ _ => .ok "", fun _ => false,
          fun _ => "", fun _ => 0⟩
        ⟨"n1", NodeType.SCRIPT, "script", "S", []⟩ [("a", .vnum 1)] =
      .ok ([("a", .vnum 2)],
        ["Event: ActivityTaskScheduled (script.SCRIPT)", "Event: ActivityTaskStarted",
         "Executing custom script sandbox...", "Script execution completed.",
         "Event: ActivityTaskCompleted"]) ∧
    ("a", JValue.vnum 1) ∉ ([("a", JValue.vnum 2)] : JObj) :=
  ⟨rfl, by decide⟩

/-- C10 (amended): every key of a successfully executed step input is
still present in the recorded step output (the dispatcher initializes
the output as a copy of the whole input context and each later update
is a key-preserving merge, though values may be overwritten), and
merging an output forward into the context can never remove a key. -/
theorem claim_C10 (o : EffectOracle) (node : WorkflowNode) (input output : JObj)
    (logs : List String) (h : processNode o node input = .ok (output, logs)) :
    (∀ k, (objGet input k).isSome = true → (objGet output k).isSome = true) ∧
    (∀ (a b : JObj) (k : String), (objGet a k).isSome = true →
      (objGet (objMerge a b) k).isSome = true) :=
  ⟨processNode_keys_preserved o node input output logs h,
    fun a b k hk => objGet_objMerge_isSome a b k hk⟩

/-- C10 witness: key preservation evaluated on the concrete overwriting
script step. -/
theorem claim_C10_witness :
    (objGet [("a", JValue.vnum 1)] "a").isSome = true ∧
    (objGet [("a", JValue.vnum 2)] "a").isSome = true :=
  ⟨by decide,
    (claim_C10
      ⟨fun _ _ => .ok (.vobj [("a", .vnum 2)]), fun _ _ _ => .ok "", fun _ => false,
        fun _ => "", fun _ => 0⟩
      ⟨"n1", NodeType.SCRIPT, "script", "S", []⟩ [("a", .vnum 1)] [("a", .vnum 2)]
      ["Event: ActivityTaskScheduled (script.SCRIPT)", "Event: ActivityTaskStarted",
       "Executing custom script sandbox...", "Script execution completed.",
       "Event: ActivityTaskCompleted"] rfl).1 "a" (by decide)⟩

theorem contains_mem_str (l : List String) (x : String) : l.contains x = true ↔ x ∈ l :=
  List.elem_iff

theorem contains_append_str (l₁ l₂ : List String) (x : String) :
    (l₁ ++ l₂).contains x = (l₁.contains x || l₂.contains x) := by
  rcases h1 : l₁.contains x with _ | _
  · rcases h2 : l₂.contains x with _ | _
    · simp only [Bool.or_false]
      rw [Bool.eq_false_iff]
      intro hc
      rcases List.mem_append.mp ((contains_mem_str _ _).mp hc) with h | h
      · rw [(contains_mem_str _ _).mpr h] at h1; exact Bool.noConfusion h1
      · rw [(contains_mem_str _ _).mpr h] at h2; exact Bool.noConfusion h2
    · simp only [Bool.or_true]
      exact (contains_mem_str _ _).mpr (List.mem_append_right _ ((contains_mem_str _ _).mp h2))
  · simp only [Bool.true_or]
    exact (contains_mem_str _ _).mpr (List.mem_append_left _ ((contains_mem_str _ _).mp h1))

def srcList (edges : List WorkflowEdge) : List String :=
  (edges.map (fun e => e.source)).dedup

def sourcesNotIn (edges : List WorkflowEdge) (upstream : List String) : Nat :=
  ((srcList edges).filter (fun s => ! upstream.contains s)).length

def upstreamStep (acc : List String × List String) (e : WorkflowEdge) :
    List String × List String :=
  if acc.1.contains e.source then acc else (acc.1 ++ [e.source], acc.2 ++ [e.source])

def upstreamLoop (edges : List WorkflowEdge) :
    Nat → List String → List String → List String → List String
  | 0, _, _, upstream => upstream
  | fuel + 1, queue, visited, upstream =>
      match queue with
      | [] => upstream
      | currentId :: rest =>
          if visited.contains currentId then
            upstreamLoop edges fuel rest visited upstream
          else
            let incoming := edges.filter (fun e => e.target = currentId)
            let acc := incoming.foldl upstreamStep (upstream, [])
            upstreamLoop edges fuel (rest ++ acc.2) (visited ++ [currentId]) acc.1

def getUpstreamNodes (nodes : List WorkflowNode) (edges : List WorkflowEdge)
    (targetNodeId : String) : List WorkflowNode :=
  let upstream := upstreamLoop edges (edges.length + 1) [targetNodeId] [] []
  nodes.filter (fun n => upstream.contains n.id)

theorem sourcesNotIn_append_lt (edges : List WorkflowEdge) (upstream : List String)
    (s : String) (hmem : s ∈ srcList edges) (hnot : upstream.contains s = false) :
    sourcesNotIn edges (upstream ++ [s]) + 1 ≤ sourcesNotIn edges upstream := by
  unfold sourcesNotIn
  have hsub : ((srcList edges).filter (fun x => ! (upstream ++ [s]).contains x)).Sublist
      ((srcList edges).filter (fun x => ! upstream.contains x)) := by
    apply List.monotone_filter_right
    intro a ha
    rw [Bool.not_eq_true'] at ha ⊢
    rw [contains_append_str] at ha
    rcases h1 : upstream.contains a with _ | _
    · rfl
    · rw [h1] at ha
      simp at ha
  have hlen := hsub.length_le
  rcases Nat.lt_or_ge (((srcList edges).filter
      (fun x => ! (upstream ++ [s]).contains x)).length)
      (((srcList edges).filter (fun x => ! upstream.contains x)).length) with hlt | hge
  · omega
  · exfalso
    have heq : ((srcList edges).filter (fun x => ! (upstream ++ [s]).contains x)) =
        ((srcList edges).filter (fun x => ! upstream.contains x)) :=
      hsub.eq_of_length (Nat.le_antisymm hlen hge)
    have hs1 : s ∈ (srcList edges).filter (fun x => ! upstream.contains x) := by
      rw [List.mem_filter, hnot]
      exact ⟨hmem, rfl⟩
    rw [← heq, List.mem_filter] at hs1
    have hs2 := hs1.2
    rw [Bool.not_eq_true', contains_append_str] at hs2
    have hself : ([s].contains s) = true := by simp
    rw [hself, Bool.or_true] at hs2
    exact Bool.noConfusion hs2

theorem upstreamStep_fold_measure (edges : List WorkflowEdge) :
    ∀ (incoming : List WorkflowEdge), (∀ e ∈ incoming, e ∈ edges) →
      ∀ (u nq : List String),
        (incoming.foldl upstreamStep (u, nq)).2.length +
            sourcesNotIn edges (incoming.foldl upstreamStep (u, nq)).1 ≤
          nq.length + sourcesNotIn edges u := by
  intro incoming
  induction incoming with
  | nil => intro _ u nq; simp
  | cons e rest ih =>
      intro hmem u nq
      simp only [List.foldl_cons]
      rcases hc : u.contains e.source with _ | _
      · have hstep : upstreamStep (u, nq) e = (u ++ [e.source], nq ++ [e.source]) := by
          dsimp only [upstreamStep]
          rw [hc]
          simp
        rw [hstep]
        have h1 := ih (fun x hx => hmem x (List.mem_cons_of_mem e hx)) (u ++ [e.source])
          (nq ++ [e.source])
        have h2 : e.source ∈ srcList edges := by
          unfold srcList
          exact List.mem_dedup.mpr (List.mem_map_of_mem _ (hmem e (List.mem_cons_self e rest)))
        have h3 := sourcesNotIn_append_lt edges u e.source h2 hc
        simp only [List.length_append, List.length_cons, List.length_nil] at h1 ⊢
        omega
      · have hstep : upstreamStep (u, nq) e = (u, nq) := by
          dsimp only [upstreamStep]
          rw [hc]
          simp
        rw [hstep]
        exact ih (fun x hx => hmem x (List.mem_cons_of_mem e hx)) u nq

theorem sourcesNotIn_le (edges : List WorkflowEdge) (u : List String) :
    sourcesNotIn edges u ≤ edges.length := by
  unfold sourcesNotIn
  calc ((srcList edges).filter (fun s => ! u.contains s)).length
      ≤ (srcList edges).length := (List.filter_sublist _).length_le
    _ ≤ (edges.map (fun e => e.source)).length := (List.dedup_sublist _).length_le
    _ = edges.length := List.length_map _ _

theorem upstreamLoop_fuelIrrel (edges : List WorkflowEdge) :
    ∀ (f₁ f₂ : Nat) (q v u : List String),
      q.length + sourcesNotIn edges u ≤ f₁ → q.length + sourcesNotIn edges u ≤ f₂ →
      upstreamLoop edges f₁ q v u = upstreamLoop edges f₂ q v u := by
  intro f₁
  induction f₁ with
  | zero =>
      intro f₂ q v u h1 _
      have hq : q = [] := by
        cases q with
        | nil => rfl
        | cons a rest => simp at h1
      subst hq
      cases f₂ with
      | zero => rfl
      | succ g => simp [upstreamLoop]
  | succ f ih =>
      intro f₂ q v u h1 h2
      cases q with
      | nil =>
          cases f₂ with
          | zero => simp [upstreamLoop]
          | succ g => simp [upstreamLoop]
      | cons c rest =>
          have hf₂ : ∃ g, f₂ = g + 1 := by
            cases f₂ with
            | zero => simp at h2
            | succ g => exact ⟨g, rfl⟩
          obtain ⟨g, rfl⟩ := hf₂
          simp only [upstreamLoop]
          rcases hv : v.contains c with _ | _
          · simp only [Bool.false_eq_true, if_false]
            apply ih g (rest ++ (List.foldl upstreamStep (u, [])
              (edges.filter (fun e => e.target = c))).2) (v ++ [c])
            · have hfold := upstreamStep_fold_measure edges
                (edges.filter (fun e => e.target = c))
                (fun x hx => List.mem_of_mem_filter hx) u []
              simp only [List.length_nil, Nat.zero_add, List.length_append,
                List.length_cons] at hfold h1 ⊢
              omega
            · have hfold := upstreamStep_fold_measure edges
                (edges.filter (fun e => e.target = c))
                (fun x hx => List.mem_of_mem_filter hx) u []
              simp only [List.length_nil, Nat.zero_add, List.length_append,
                List.length_cons] at hfold h2 ⊢
              omega
          · simp only [if_true]
            apply ih g rest v u
            · simp only [List.length_cons] at h1
              omega
            · simp only [List.length_cons] at h2
              omega

inductive Reaches (edges : List WorkflowEdge) : String → String → Prop where
  | refl (a : String) : Reaches edges a a
  | step {c : String} (e : WorkflowEdge) (he : e ∈ edges)
      (h : Reaches edges e.target c) : Reaches edges e.source c

def ReachesPos (edges : List WorkflowEdge) (a b : String) : Prop :=
  ∃ e, e ∈ edges ∧ e.source = a ∧ Reaches edges e.target b

theorem upstreamStep_fold_mem₁ :
    ∀ (incoming : List WorkflowEdge) (acc : List String × List String) (s : String),
      s ∈ (incoming.foldl upstreamStep acc).1 → s ∈ acc.1 ∨ ∃ e, e ∈ incoming ∧ e.source = s := by
  intro incoming
  induction incoming with
  | nil => intro acc s h; exact Or.inl h
  | cons e rest ih =>
      intro acc s h
      simp only [List.foldl_cons] at h
      rcases ih (upstreamStep acc e) s h with h1 | ⟨e₂, he₂, hs₂⟩
      · dsimp only [upstreamStep] at h1
        rcases hc : acc.1.contains e.source with _ | _
        · rw [hc] at h1
          simp only [Bool.false_eq_true, if_false] at h1
          rcases List.mem_append.mp h1 with h2 | h2
          · exact Or.inl h2
          · rcases List.mem_singleton.mp h2 with rfl
            exact Or.inr ⟨e, List.mem_cons_self e rest, rfl⟩
        · rw [hc] at h1
          simp only [if_true] at h1
          exact Or.inl h1
      · exact Or.inr ⟨e₂, List.mem_cons_of_mem e he₂, hs₂⟩

theorem upstreamStep_fold_mem₂ :
    ∀ (incoming : List WorkflowEdge) (acc : List String × List String) (s : String),
      s ∈ (incoming.foldl upstreamStep acc).2 → s ∈ acc.2 ∨ ∃ e, e ∈ incoming ∧ e.source = s := by
  intro incoming
  induction incoming with
  | nil => intro acc s h; exact Or.inl h
  | cons e rest ih =>
      intro acc s h
      simp only [List.foldl_cons] at h
      rcases ih (upstreamStep acc e) s h with h1 | ⟨e₂, he₂, hs₂⟩
      · dsimp only [upstreamStep] at h1
        rcases hc : acc.1.contains e.source with _ | _
        · rw [hc] at h1
          simp only [Bool.false_eq_true, if_false] at h1
          rcases List.mem_append.mp h1 with h2 | h2
          · exact Or.inl h2
          · rcases List.mem_singleton.mp h2 with rfl
            exact Or.inr ⟨e, List.mem_cons_self e rest, rfl⟩
        · rw [hc] at h1
          simp only [if_true] at h1
          exact Or.inl h1
      · exact Or.inr ⟨e₂, List.mem_cons_of_mem e he₂, hs₂⟩

theorem upstreamLoop_reaches (edges : List WorkflowEdge) (t : String) :
    ∀ (fuel : Nat) (q v u : List String),
      (∀ s, s ∈ q → Reaches edges s t) →
      (∀ s, s ∈ u → ReachesPos edges s t) →
      ∀ s, s ∈ upstreamLoop edges fuel q v u → ReachesPos edges s t := by
  intro fuel
  induction fuel with
  | zero => intro q v u _ hu s hs; exact hu s hs
  | succ f ih =>
      intro q v u hq hu s hs
      cases q with
      | nil =>
          simp only [upstreamLoop] at hs
          exact hu s hs
      | cons c rest =>
          simp only [upstreamLoop] at hs
          rcases hv : v.contains c with _ | _
          · rw [hv] at hs
            simp only [Bool.false_eq_true, if_false] at hs
            apply ih _ _ _ _ _ s hs
            · intro x hx
              rcases List.mem_append.mp hx with h1 | h1
              · exact hq x (List.mem_cons_of_mem c h1)
              · rcases upstreamStep_fold_mem₂ _ _ _ h1 with h2 | ⟨e, he, hsrc⟩
                · simp at h2
                · have het : e.target = c := by
                    have := List.mem_filter.mp he
                    exact of_decide_eq_true this.2
                  have hreach : Reaches edges e.target t := by
                    rw [het]
                    exact hq c (List.mem_cons_self c rest)
                  rw [← hsrc]
                  exact Reaches.step e (List.mem_of_mem_filter he) hreach
            · intro x hx
              rcases upstreamStep_fold_mem₁ _ _ _ hx with h2 | ⟨e, he, hsrc⟩
              · exact hu x h2
              · have het : e.target = c := by
                  have := List.mem_filter.mp he
                  exact of_decide_eq_true this.2
                have hreach : Reaches edges e.target t := by
                  rw [het]
                  exact hq c (List.mem_cons_self c rest)
                exact ⟨e, List.mem_of_mem_filter he, hsrc, hreach⟩
          · rw [hv] at hs
            simp only [if_true] at hs
            exact ih _ _ _ (fun x hx => hq x (List.mem_cons_of_mem c hx)) hu s hs

/-- C9 counterexample: on the two-node cycle A -> T -> A, the upstream
set of T contains T itself, because the reverse traversal re-enters the
target through the cycle and the source only guards the queue by the
visited set, not the upstream set. -/
theorem claim_C9_counterexample :
    (getUpstreamNodes
        [⟨"A", NodeType.ACTION, "slack", "A", []⟩, ⟨"T", NodeType.ACTION, "slack", "T", []⟩]
        [⟨"e1", "A", "T", none⟩, ⟨"e2", "T", "A", none⟩] "T").map (fun n => n.id) =
      ["A", "T"] ∧
    ((getUpstreamNodes
        [⟨"A", NodeType.ACTION, "slack", "A", []⟩, ⟨"T", NodeType.ACTION, "slack", "T", []⟩]
        [⟨"e1", "A", "T", none⟩, ⟨"e2", "T", "A", none⟩] "T").map (fun n => n.id)).contains
      "T" = true := by
  constructor
  · decide
  · decide

/-- C9 (amended): getUpstreamNodes terminates on every graph, cyclic or
not — beyond the explicit fuel bound edges.length + 1 the traversal
result is stable — and its result never includes the target node itself
provided the target does not lie on a directed cycle through itself. -/
theorem claim_C9 (nodes : List WorkflowNode) (edges : List WorkflowEdge)
    (targetNodeId : String) :
    (∀ fuel, edges.length + 1 ≤ fuel →
        nodes.filter (fun n => (upstreamLoop edges fuel [targetNodeId] [] []).contains n.id) =
          getUpstreamNodes nodes edges targetNodeId) ∧
    (¬ ReachesPos edges targetNodeId targetNodeId →
        ((getUpstreamNodes nodes edges targetNodeId).map (fun n => n.id)).contains
          targetNodeId = false) := by
  constructor
  · intro fuel hf
    have hmeas : ([targetNodeId] : List String).length + sourcesNotIn edges [] ≤
        edges.length + 1 := by
      have := sourcesNotIn_le edges []
      simp only [List.length_cons, List.length_nil]
      omega
    have heq : upstreamLoop edges fuel [targetNodeId] [] [] =
        upstreamLoop edges (edges.length + 1) [targetNodeId] [] [] :=
      upstreamLoop_fuelIrrel edges fuel (edges.length + 1) [targetNodeId] [] []
        (Nat.le_trans hmeas hf) hmeas
    rw [heq]
    rfl
  · intro hcyc
    rcases hcb : ((getUpstreamNodes nodes edges targetNodeId).map
        (fun n => n.id)).contains targetNodeId with _ | _
    · exact hcb
    · have hmem := (contains_mem_str _ _).mp hcb
      rcases List.mem_map.mp hmem with ⟨n, hn, hid⟩
      simp only [getUpstreamNodes] at hn
      have hn2 := List.mem_filter.mp hn
      have hn3 : n.id ∈ upstreamLoop edges (edges.length + 1) [targetNodeId] [] [] :=
        (contains_mem_str _ _).mp hn2.2
      have hpos : ReachesPos edges n.id targetNodeId :=
        upstreamLoop_reaches edges targetNodeId (edges.length + 1) [targetNodeId] [] []
          (fun s hs => by
            rcases List.mem_singleton.mp hs with rfl
            exact Reaches.refl s)
          (fun s hs => absurd hs (List.not_mem_nil s)) n.id hn3
      rw [hid] at hpos
      exact absurd hpos hcyc

/-- C9 witness: the termination and target-exclusion conjuncts evaluated
on the acyclic graph A -> T with extra fuel 5. -/
theorem claim_C9_witness :
    ([⟨"A", NodeType.ACTION, "slack", "A", []⟩,
        ⟨"T", NodeType.ACTION, "slack", "T", []⟩].filter
        (fun n => (upstreamLoop [⟨"e1", "A", "T", none⟩] 5 ["T"] [] []).contains n.id) =
      getUpstreamNodes
        [⟨"A", NodeType.ACTION, "slack", "A", []⟩, ⟨"T", NodeType.ACTION, "slack", "T", []⟩]
        [⟨"e1", "A", "T", none⟩] "T") ∧
    ((getUpstreamNodes
        [⟨"A", NodeType.ACTION, "slack", "A", []⟩, ⟨"T", NodeType.ACTION, "slack", "T", []⟩]
        [⟨"e1", "A", "T", none⟩] "T").map (fun n => n.id)).contains "T" = false :=
  ⟨(claim_C9 [⟨"A", NodeType.ACTION, "slack", "A", []⟩,
      ⟨"T", NodeType.ACTION, "slack", "T", []⟩] [⟨"e1", "A", "T", none⟩] "T").1 5 (by decide),
   (claim_C9 [⟨"A", NodeType.ACTION, "slack", "A", []⟩,
      ⟨"T", NodeType.ACTION, "slack", "T", []⟩] [⟨"e1", "A", "T", none⟩] "T").2
    (fun hcontra => by
      obtain ⟨e, he, hs, _⟩ := hcontra
      rcases List.mem_singleton.mp he with rfl
      exact absurd hs (by decide))⟩

def adjOf (nodes : List WorkflowNode) (edges : List WorkflowEdge) (id : String) :
    List String :=
  if nodes.any (fun n => n.id = id) then
    (edges.filter (fun e => e.source = id)).map (fun e => e.target)
  else []

def dfsCycleList (adj : String → List String) :
    Nat → List String → List String → List String → Bool × List String
  | 0, _, visited, _ => (false, visited)
  | _ + 1, [], visited, _ => (false, visited)
  | fuel + 1, n :: rest, visited, recStack =>
      if recStack.contains n then (true, visited)
      else if visited.contains n then dfsCycleList adj fuel rest visited recStack
      else
        match dfsCycleList adj fuel (adj n) (visited ++ [n]) (recStack ++ [n]) with
        | (true, v) => (true, v)
        | (false, v) => dfsCycleList adj fuel rest v recStack

def hasCycle (nodes : List WorkflowNode) (edges : List WorkflowEdge) : Bool :=
  (dfsCycleList (adjOf nodes edges) (2 * nodes.length + edges.length + 2)
    (nodes.map (fun n => n.id)) [] []).1

structure ValidationResult : Type where
  isValid : Bool
  errors : List String

def orphanCheck (edges : List WorkflowEdge) (acc : List String) (node : WorkflowNode) :
    List String :=
  if edges.any (fun e => e.target = node.id) then acc
  else acc ++ ["Node \x27" ++ node.label ++ "\x27 is disconnected (no incoming connection)."]

def configCheck (edges : List WorkflowEdge) (acc : List String) (node : WorkflowNode) :
    List String :=
  let acc₁ := if node.service = "" then
      acc ++ ["Node \x27" ++ node.label ++ "\x27 is missing a service definition."]
    else acc
  if node.type = NodeType.CONDITION ∧
      (edges.filter (fun e => e.source = node.id)).length = 0 then
    acc₁ ++ ["Condition \x27" ++ node.label ++ "\x27 has no outgoing paths."]
  else acc₁

def validateWorkflow (nodes : List WorkflowNode) (edges : List WorkflowEdge) :
    ValidationResult :=
  let errors0 : List String := []
  let triggers := nodes.filter (fun n => n.type = NodeType.TRIGGER)
  let errors1 := if triggers.length = 0 then
      errors0 ++ ["Workflow must have at least one Trigger node."] else errors0
  let nonTriggers := nodes.filter (fun n => ¬ n.type = NodeType.TRIGGER)
  let errors2 := nonTriggers.foldl (orphanCheck edges) errors1
  let errors3 := if hasCycle nodes edges then
      errors2 ++ ["Workflow contains an infinite loop (cycle). Please remove the cycle."]
    else errors2
  let errors4 := nodes.foldl (configCheck edges) errors3
  ⟨errors4.length == 0, errors4⟩

theorem foldl_mem_mono {β : Type} (step : List String → β → List String)
    (hstep : ∀ acc b x, x ∈ acc → x ∈ step acc b) :
    ∀ (l : List β) (acc : List String) (x : String), x ∈ acc → x ∈ l.foldl step acc := by
  intro l
  induction l with
  | nil => intro acc x h; exact h
  | cons b rest ih =>
      intro acc x h
      simp only [List.foldl_cons]
      exact ih (step acc b) x (hstep acc b x h)

theorem orphanCheck_mono (edges : List WorkflowEdge) (acc : List String)
    (node : WorkflowNode) (x : String) (h : x ∈ acc) : x ∈ orphanCheck edges acc node := by
  unfold orphanCheck
  split
  · exact h
  · exact List.mem_append_left _ h

theorem configCheck_mono (edges : List WorkflowEdge) (acc : List String)
    (node : WorkflowNode) (x : String) (h : x ∈ acc) : x ∈ configCheck edges acc node := by
  unfold configCheck
  dsimp only
  split
  · split
    · exact List.mem_append_left _ (List.mem_append_left _ h)
    · exact List.mem_append_left _ h
  · split
    · exact List.mem_append_left _ h
    · exact h

theorem orphan_fold_mem (edges : List WorkflowEdge) :
    ∀ (l : List WorkflowNode) (acc : List String) (node : WorkflowNode), node ∈ l →
      edges.any (fun e => e.target = node.id) = false →
      ("Node \x27" ++ node.label ++ "\x27 is disconnected (no incoming connection).") ∈
        l.foldl (orphanCheck edges) acc := by
  intro l
  induction l with
  | nil => intro acc node h _; exact absurd h (List.not_mem_nil node)
  | cons b rest ih =>
      intro acc node h hany
      simp only [List.foldl_cons]
      rcases List.mem_cons.mp h with rfl | h2
      · apply foldl_mem_mono (orphanCheck edges) (orphanCheck_mono edges) rest
        unfold orphanCheck
        rw [hany]
        simp only [Bool.false_eq_true, if_false]
        exact List.mem_append_right _ (List.mem_singleton.mpr rfl)
      · exact ih (orphanCheck edges acc b) node h2 hany

theorem config_fold_mem_service (edges : List WorkflowEdge) :
    ∀ (l : List WorkflowNode) (acc : List String) (node : WorkflowNode), node ∈ l →
      node.service = "" →
      ("Node \x27" ++ node.label ++ "\x27 is missing a service definition.") ∈
        l.foldl (configCheck edges) acc := by
  intro l
  induction l with
  | nil => intro acc node h _; exact absurd h (List.not_mem_nil node)
  | cons b rest ih =>
      intro acc node h hsvc
      simp only [List.foldl_cons]
      rcases List.mem_cons.mp h with rfl | h2
      · apply foldl_mem_mono (configCheck edges) (configCheck_mono edges) rest
        unfold configCheck
        rw [if_pos hsvc]
        dsimp only
        split
        · exact List.mem_append_left _
            (List.mem_append_right _ (List.mem_singleton.mpr rfl))
        · exact List.mem_append_right _ (List.mem_singleton.mpr rfl)
      · exact ih (configCheck edges acc b) node h2 hsvc

theorem config_fold_mem_condition (edges : List WorkflowEdge) :
    ∀ (l : List WorkflowNode) (acc : List String) (node : WorkflowNode), node ∈ l →
      node.type = NodeType.CONDITION →
      (edges.filter (fun e => e.source = node.id)).length = 0 →
      ("Condition \x27" ++ node.label ++ "\x27 has no outgoing paths.") ∈
        l.foldl (configCheck edges) acc := by
  intro l
  induction l with
  | nil => intro acc node h _ _; exact absurd h (List.not_mem_nil node)
  | cons b rest ih =>
      intro acc node h hty hout
      simp only [List.foldl_cons]
      rcases List.mem_cons.mp h with rfl | h2
      · apply foldl_mem_mono (configCheck edges) (configCheck_mono edges) rest
        unfold configCheck
        dsimp only
        rw [if_pos ⟨hty, hout⟩]
        exact List.mem_append_right _ (List.mem_singleton.mpr rfl)
      · exact ih (configCheck edges acc b) node h2 hty hout

/-- C8: validateWorkflow accumulates every violation of its checks
rather than stopping at the first — the trigger-presence, orphan, cycle,
missing-service and condition-outgoing messages are each present in the
errors list whenever their check is violated — isValid is true exactly
when the errors list is empty, and every non-TRIGGER node with no
incoming edge produces an error string built around that node label. -/
theorem claim_C8 (nodes : List WorkflowNode) (edges : List WorkflowEdge) :
    ((validateWorkflow nodes edges).isValid = true ↔
      (validateWorkflow nodes edges).errors = []) ∧
    ((nodes.filter (fun n => n.type = NodeType.TRIGGER)).length = 0 →
      "Workflow must have at least one Trigger node." ∈
        (validateWorkflow nodes edges).errors) ∧
    (∀ node, node ∈ nodes → ¬ node.type = NodeType.TRIGGER →
      edges.any (fun e => e.target = node.id) = false →
      ("Node \x27" ++ node.label ++ "\x27 is disconnected (no incoming connection).") ∈
        (validateWorkflow nodes edges).errors) ∧
    (hasCycle nodes edges = true →
      "Workflow contains an infinite loop (cycle). Please remove the cycle." ∈
        (validateWorkflow nodes edges).errors) ∧
    (∀ node, node ∈ nodes → node.service = "" →
      ("Node \x27" ++ node.label ++ "\x27 is missing a service definition.") ∈
        (validateWorkflow nodes edges).errors) ∧
    (∀ node, node ∈ nodes → node.type = NodeType.CONDITION →
      (edges.filter (fun e => e.source = node.id)).length = 0 →
      ("Condition \x27" ++ node.label ++ "\x27 has no outgoing paths.") ∈
        (validateWorkflow nodes edges).errors) := by
  refine ⟨?_, ?_, ?_, ?_, ?_, ?_⟩
  · simp only [validateWorkflow]
    constructor
    · intro h
      exact List.length_eq_zero.mp (Nat.beq_eq_true_eq _ _ ▸ h)
    · intro h
      rw [h]
      rfl
  · intro htrig
    simp only [validateWorkflow]
    rw [if_pos htrig]
    apply foldl_mem_mono (configCheck edges) (configCheck_mono edges) nodes
    have h2 := foldl_mem_mono (orphanCheck edges) (orphanCheck_mono edges)
      (nodes.filter (fun n => ¬ n.type = NodeType.TRIGGER))
      (([] : List String) ++ ["Workflow must have at least one Trigger node."])
      "Workflow must have at least one Trigger node." (by simp)
    split
    · exact List.mem_append_left _ h2
    · exact h2
  · intro node hmem hty hany
    simp only [validateWorkflow]
    apply foldl_mem_mono (configCheck edges) (configCheck_mono edges) nodes
    have h1 := orphan_fold_mem edges (nodes.filter (fun n => ¬ n.type = NodeType.TRIGGER))
      (if (nodes.filter (fun n => n.type = NodeType.TRIGGER)).length = 0 then
          ([] : List String) ++ ["Workflow must have at least one Trigger node."]
        else []) node (List.mem_filter.mpr ⟨hmem, by simpa using hty⟩) hany
    split
    · exact List.mem_append_left _ h1
    · exact h1
  · intro hcyc
    simp only [validateWorkflow]
    apply foldl_mem_mono (configCheck edges) (configCheck_mono edges) nodes
    rw [if_pos hcyc]
    exact List.mem_append_right _ (List.mem_singleton.mpr rfl)
  · intro node hmem hsvc
    simp only [validateWorkflow]
    exact config_fold_mem_service edges nodes _ node hmem hsvc
  · intro node hmem hty hout
    simp only [validateWorkflow]
    exact config_fold_mem_condition edges nodes _ node hmem hty hout

/-- C8 witness: a graph violating all five checks at once — no trigger,
orphan node A with empty service, cycle X to Y to X, and condition C
with no outgoing edge — has every corresponding message in its errors
list, and is reported invalid. -/
theorem claim_C8_witness :
    ("Workflow must have at least one Trigger node." ∈
      (validateWorkflow
        [⟨"A", NodeType.ACTION, "", "A", []⟩, ⟨"X", NodeType.ACTION, "slack", "X", []⟩,
         ⟨"Y", NodeType.ACTION, "slack", "Y", []⟩, ⟨"C", NodeType.CONDITION, "system", "C", []⟩]
        [⟨"e1", "X", "Y", none⟩, ⟨"e2", "Y", "X", none⟩, ⟨"e3", "Y", "C", none⟩]).errors) ∧
    (("Node \x27" ++ "A" ++ "\x27 is disconnected (no incoming connection).") ∈
      (validateWorkflow
        [⟨"A", NodeType.ACTION, "", "A", []⟩, ⟨"X", NodeType.ACTION, "slack", "X", []⟩,
         ⟨"Y", NodeType.ACTION, "slack", "Y", []⟩, ⟨"C", NodeType.CONDITION, "system", "C", []⟩]
        [⟨"e1", "X", "Y", none⟩, ⟨"e2", "Y", "X", none⟩, ⟨"e3", "Y", "C", none⟩]).errors) ∧
    ("Workflow contains an infinite loop (cycle). Please remove the cycle." ∈
      (validateWorkflow
        [⟨"A", NodeType.ACTION, "", "A", []⟩, ⟨"X", NodeType.ACTION, "slack", "X", []⟩,
         ⟨"Y", NodeType.ACTION, "slack", "Y", []⟩, ⟨"C", NodeType.CONDITION, "system", "C", []⟩]
        [⟨"e1", "X", "Y", none⟩, ⟨"e2", "Y", "X", none⟩, ⟨"e3", "Y", "C", none⟩]).errors) ∧
    (("Node \x27" ++ "A" ++ "\x27 is missing a service definition.") ∈
      (validateWorkflow
        [⟨"A", NodeType.ACTION, "", "A", []⟩, ⟨"X", NodeType.ACTION, "slack", "X", []⟩,
         ⟨"Y", NodeType.ACTION, "slack", "Y", []⟩, ⟨"C", NodeType.CONDITION, "system", "C", []⟩]
        [⟨"e1", "X", "Y", none⟩, ⟨"e2", "Y", "X", none⟩, ⟨"e3", "Y", "C", none⟩]).errors) ∧
    (("Condition \x27" ++ "C" ++ "\x27 has no outgoing paths.") ∈
      (validateWorkflow
        [⟨"A", NodeType.ACTION, "", "A", []⟩, ⟨"X", NodeType.ACTION, "slack", "X", []⟩,
         ⟨"Y", NodeType.ACTION, "slack", "Y", []⟩, ⟨"C", NodeType.CONDITION, "system", "C", []⟩]
        [⟨"e1", "X", "Y", none⟩, ⟨"e2", "Y", "X", none⟩, ⟨"e3", "Y", "C", none⟩]).errors) ∧
    (validateWorkflow
        [⟨"A", NodeType.ACTION, "", "A", []⟩, ⟨"X", NodeType.ACTION, "slack", "X", []⟩,
         ⟨"Y", NodeType.ACTION, "slack", "Y", []⟩, ⟨"C", NodeType.CONDITION, "system", "C", []⟩]
        [⟨"e1", "X", "Y", none⟩, ⟨"e2", "Y", "X", none⟩, ⟨"e3", "Y", "C", none⟩]).isValid =
      false :=
  ⟨(claim_C8 [⟨"A", NodeType.ACTION, "", "A", []⟩, ⟨"X", NodeType.ACTION, "slack", "X", []⟩,
      ⟨"Y", NodeType.ACTION, "slack", "Y", []⟩, ⟨"C", NodeType.CONDITION, "system", "C", []⟩]
      [⟨"e1", "X", "Y", none⟩, ⟨"e2", "Y", "X", none⟩, ⟨"e3", "Y", "C", none⟩]).2.1
      (by decide),
   (claim_C8 [⟨"A", NodeType.ACTION, "", "A", []⟩, ⟨"X", NodeType.ACTION, "slack", "X", []⟩,
      ⟨"Y", NodeType.ACTION, "slack", "Y", []⟩, ⟨"C", NodeType.CONDITION, "system", "C", []⟩]
      [⟨"e1", "X", "Y", none⟩, ⟨"e2", "Y", "X", none⟩, ⟨"e3", "Y", "C", none⟩]).2.2.1
      ⟨"A", NodeType.ACTION, "", "A", []⟩ (List.mem_cons_self _ _) (by decide) (by decide),
   (claim_C8 [⟨"A", NodeType.ACTION, "", "A", []⟩, ⟨"X", NodeType.ACTION, "slack", "X", []⟩,
      ⟨"Y", NodeType.ACTION, "slack", "Y", []⟩, ⟨"C", NodeType.CONDITION, "system", "C", []⟩]
      [⟨"e1", "X", "Y", none⟩, ⟨"e2", "Y", "X", none⟩, ⟨"e3", "Y", "C", none⟩]).2.2.2.1
      (by decide),
   (claim_C8 [⟨"A", NodeType.ACTION, "", "A", []⟩, ⟨"X", NodeType.ACTION, "slack", "X", []⟩,
      ⟨"Y", NodeType.ACTION, "slack", "Y", []⟩, ⟨"C", NodeType.CONDITION, "system", "C", []⟩]
      [⟨"e1", "X", "Y", none⟩, ⟨"e2", "Y", "X", none⟩, ⟨"e3", "Y", "C", none⟩]).2.2.2.2.1
      ⟨"A", NodeType.ACTION, "", "A", []⟩ (List.mem_cons_self _ _) rfl,
   (claim_C8 [⟨"A", NodeType.ACTION, "", "A", []⟩, ⟨"X", NodeType.ACTION, "slack", "X", []⟩,
      ⟨"Y", NodeType.ACTION, "slack", "Y", []⟩, ⟨"C", NodeType.CONDITION, "system", "C", []⟩]
      [⟨"e1", "X", "Y", none⟩, ⟨"e2", "Y", "X", none⟩, ⟨"e3", "Y", "C", none⟩]).2.2.2.2.2
      ⟨"C", NodeType.CONDITION, "system", "C", []⟩
      (List.mem_cons_of_mem _ (List.mem_cons_of_mem _ (List.mem_cons_of_mem _
        (List.mem_cons_self _ _)))) rfl (by decide),
   by decide⟩
